import Mathlib

/-!
# Verification of the BCBP boarding-pass decoder

Shallow embedding of `src/pbflightlog/boarding_pass.py` (class `BoardingPass`).
Strings are modelled as `List Char`; Python integers as `Int`; Python's
fallible `int(...)` conversions as `Option Int` (returning `none` where Python
raises `ValueError`).  `int` parsing is modelled for ASCII strings (optional
surrounding whitespace, optional sign, digit runs with single underscores
between digits, and for base 16 an optional `0x` prefix); Unicode digit
classes are out of scope of the model.

The parser threads an explicit state (`PSt`) mirroring the mutable `self`
object, plus a ghost trace of events (`Ev`): one `.store` event per field
assignment (recording the block kind, key, slice offsets, declared width, and
stored value), one `.block` event per successfully parsed self-describing
block (recording its computed span), and one `.invalid` event per
`self.valid = False` assignment (tagged with the program point).
The ghost fields `events` and `stopped` (set where `__parse` returns early)
do not influence any parsed data.
-/

namespace BCBP

/-- Python slice `s[a:b]` on a string, for arbitrary integer bounds
(negative indices count from the end; results are clamped to the bounds). -/
def pySlice (s : List Char) (a b : Int) : List Char :=
  let n : Nat := s.length
  let lo : Nat := if a < 0 then (a + (n : Int)).toNat else min a.toNat n
  let hi : Nat := if b < 0 then (b + (n : Int)).toNat else min b.toNat n
  (s.take hi).drop lo

/-- ASCII whitespace stripped by Python's `int`. -/
def isPyWs (c : Char) : Bool :=
  c = ' ' || c = '\t' || c = '\n' || c = '\r' || c = '\x0b' || c = '\x0c'

/-- `str.strip()` for ASCII whitespace. -/
def stripWs (l : List Char) : List Char :=
  ((l.dropWhile isPyWs).reverse.dropWhile isPyWs).reverse

/-- Decimal digit value of a character, if any. -/
def decVal (c : Char) : Option Nat :=
  if '0' ≤ c ∧ c ≤ '9' then some (c.toNat - '0'.toNat) else none

/-- Hexadecimal digit value of a character, if any. -/
def hexVal (c : Char) : Option Nat :=
  if '0' ≤ c ∧ c ≤ '9' then some (c.toNat - '0'.toNat)
  else if 'a' ≤ c ∧ c ≤ 'f' then some (c.toNat - 'a'.toNat + 10)
  else if 'A' ≤ c ∧ c ≤ 'F' then some (c.toNat - 'A'.toNat + 10)
  else none

/-- Continuation of a digit run: digits, with single underscores allowed
between digits (Python's numeric-literal rule for `int`). -/
def digitsGo (v : Char → Option Nat) (base : Nat) (acc : Nat) : List Char → Option Nat
  | [] => some acc
  | '_' :: c :: rest =>
    match v c with
    | some d => digitsGo v base (acc * base + d) rest
    | none => none
  | c :: rest =>
    match v c with
    | some d => digitsGo v base (acc * base + d) rest
    | none => none

/-- A nonempty digit run (underscores only between digits). -/
def digitsRun (v : Char → Option Nat) (base : Nat) : List Char → Option Nat
  | [] => none
  | c :: rest =>
    match v c with
    | some d => digitsGo v base d rest
    | none => none

/-- Optional leading sign; returns (isNegative, rest). -/
def pySign : List Char → Bool × List Char
  | '+' :: rest => (false, rest)
  | '-' :: rest => (true, rest)
  | l => (false, l)

/-- Python `int(s)` (base 10) on ASCII strings; `none` where Python raises
`ValueError`. -/
def pyIntDec (l : List Char) : Option Int :=
  let t := stripWs l
  let p := pySign t
  match digitsRun decVal 10 p.2 with
  | some n => some (if p.1 then -(n : Int) else (n : Int))
  | none => none

/-- Python `int(s, 16)` on ASCII strings (optional `0x`/`0X` prefix);
`none` where Python raises `ValueError`. -/
def pyIntHex (l : List Char) : Option Int :=
  let t := stripWs l
  let p := pySign t
  let body := match p.2 with
    | '0' :: 'x' :: rest => rest
    | '0' :: 'X' :: rest => rest
    | b => b
  match digitsRun hexVal 16 body with
  | some n => some (if p.1 then -(n : Int) else (n : Int))
  | none => none

/-! ## The `_BCBP_FIELDS` tables -/

/-- `_BCBP_FIELDS["mandatory_unique"]`. -/
def mandUFields : List (String × Nat) :=
  [("format_code", 1), ("leg_count", 1), ("passenger_name", 20),
   ("electronic_ticket", 1)]

/-- `_BCBP_FIELDS["mandatory_repeated"]`. -/
def mandRFields : List (String × Nat) :=
  [("pnr", 7), ("from_airport", 3), ("to_airport", 3), ("operating_carrier", 3),
   ("flight_number", 5), ("flight_date", 3), ("compartment_code", 1),
   ("seat_number", 4), ("check_in_sequence", 5), ("passenger_status", 1),
   ("conditional_airline_length", 2)]

/-- `_BCBP_FIELDS["conditional_unique"]`. -/
def condUFields : List (String × Nat) :=
  [("version_number_begin", 1), ("version_number", 1),
   ("following_unique_length", 2), ("passenger_description", 1),
   ("check_in_source", 1), ("boarding_pass_source", 1),
   ("boarding_pass_date", 4), ("document_type", 1),
   ("boarding_pass_issuer_airline", 3), ("baggage_tag_number", 13),
   ("baggage_tag_number_nonconsecutive_1", 13),
   ("baggage_tag_number_nonconsecutive_2", 13)]

/-- `_BCBP_FIELDS["conditional_repeated"]`. -/
def condRFields : List (String × Nat) :=
  [("following_repeated_length", 2), ("airline_numeric_code", 3),
   ("document_form_serial_number", 10), ("selectee_indicator", 1),
   ("international_doc_verification", 1), ("marketing_carrier", 3),
   ("frequent_flier_airline", 3), ("frequent_flier_number", 16),
   ("id_ad", 1), ("free_baggage_allowance", 3), ("fast_track", 1)]

/-- Total length of a fixed block (`sum(lengths)`). -/
def blockLen (fs : List (String × Nat)) : Nat := (fs.map Prod.snd).sum

/-- Length of the mandatory unique block (23). -/
def mandULen : Nat := blockLen mandUFields

/-- Length of a mandatory repeated block (37). -/
def mandRLen : Nat := blockLen mandRFields

/-! ## Parser state and ghost events -/

/-- Which block a field belongs to (ghost data for the trace). -/
inductive BlockKind
  | mandU | mandR | condU | condR | airline | security | trailing
deriving DecidableEq, Repr

/-- The program point at which `self.valid = False` was executed. -/
inductive InvReason
  | legCount          -- `int(self.raw['leg_count'])` raised
  | condAirLen        -- `int(..., 16)` on `conditional_airline_length` raised
  | versionNumber     -- `int(self.raw['version_number'])` raised
  | condLen (blk : BlockKind)  -- hex length field inside `__parse_cond` raised
  | cursorPastEnd     -- `cursor > self.data_len` after the leg loop
  | secLen            -- hex `security_data_length` raised
deriving DecidableEq, Repr

/-- Ghost trace events. -/
inductive Ev
  | store (blk : BlockKind) (key : String) (start stop : Int)
      (width : Option Nat) (value : List Char)
  | block (blk : BlockKind) (start stop : Int)
  | invalid (r : InvReason)
deriving DecidableEq, Repr

/-- A Python dict of string fields, in insertion order. -/
abbrev FieldMap := List (String × List Char)

/-- `d[k] = v` on a dict (overwrite in place, else append). -/
def setAssoc : FieldMap → String → List Char → FieldMap
  | [], k, v => [(k, v)]
  | (k1, v1) :: rest, k, v =>
    if k1 = k then (k, v) :: rest else (k1, v1) :: setAssoc rest k v

/-- `d.get(k)` on a dict. -/
def getAssoc : FieldMap → String → Option (List Char)
  | [], _ => none
  | (k1, v1) :: rest, k => if k1 = k then some v1 else getAssoc rest k

/-- Update the dict of the leg currently being parsed.  In the source the
current leg is addressed as `self.raw['legs'][leg_index]`, where `leg_index`
always indexes the leg appended at the start of the current iteration, i.e.
the last element of the list. -/
def updateLast (legs : List FieldMap) (k : String) (v : List Char) :
    List FieldMap :=
  match legs with
  | [] => []
  | [d] => [setAssoc d k v]
  | d :: rest => d :: updateLast rest k v

/-- Mirror of the mutable `BoardingPass` object during `__parse`, plus ghost
trace fields (`events`, `stopped`). -/
structure PSt where
  input : List Char          -- `self.bcbp_str`
  raw : FieldMap             -- `self.raw` minus `'legs'` and `'unknown'`
  legs : List FieldMap       -- `self.raw['legs']`
  unknown : Option (List Char)  -- `self.raw['unknown']`
  legCount : Option Int      -- `self.leg_count`
  vnum : Option Int          -- `self.version_number`
  valid : Bool               -- `self.valid`
  stopped : Bool             -- ghost: `__parse` has returned
  cursor : Int               -- `cursor`
  events : List Ev           -- ghost trace
deriving DecidableEq, Repr

/-- Where a field assignment goes: `self.raw` or the current leg. -/
inductive Target
  | top | leg
deriving DecidableEq, Repr

/-- `self.raw[...][key] = raw[a:b]` plus its ghost `.store` event. -/
def storeField (st : PSt) (tgt : Target) (blk : BlockKind) (k : String)
    (a b : Int) (w : Option Nat) : PSt :=
  let v := pySlice st.input a b
  let st1 := match tgt with
    | Target.top => { st with raw := setAssoc st.raw k v }
    | Target.leg => { st with legs := updateLast st.legs k v }
  { st1 with events := st1.events ++ [Ev.store blk k a b w v] }

/-- Record `self.valid = False` (with the ghost reason). -/
def invalidate (st : PSt) (r : InvReason) : PSt :=
  { st with valid := false, events := st.events ++ [Ev.invalid r] }

/-- `__parse_mand_u` / `__parse_mand_r`: store each fixed-width field of the
block in declaration order. -/
def fixedGo (tgt : Target) (blk : BlockKind) :
    List (String × Nat) → Int → PSt → PSt
  | [], _, st => st
  | (k, w) :: rest, start, st =>
    fixedGo tgt blk rest (start + (w : Int))
      (storeField st tgt blk k start (start + (w : Int)) (some w))

/-- Outcome of the `__parse_cond` field loop. -/
inductive CondOut
  | fail                       -- hex length field raised: `valid=False; return None`
  | nofol                      -- loop ended with `fol_offset is None`
  | done (folOffset folLen : Int)
deriving DecidableEq, Repr

/-- The field loop of `__parse_cond`: fields are stored in declaration order;
once the "following length" field (`folKey`) has been parsed, a field
overrunning the declared remaining size is truncated to fit, and a
non-positive remaining size stops the loop. -/
def condGo (tgt : Target) (blk : BlockKind) (folKey : String) :
    List (String × Nat) → Int → Option (Int × Int) → PSt → PSt × CondOut
  | [], _, fol, st =>
    (st, match fol with
         | some (fo, fl) => CondOut.done fo fl
         | none => CondOut.nofol)
  | (k, w) :: rest, start, fol, st =>
    match fol with
    | some (fo, fl) =>
      let remaining : Int := fo + fl - start
      if remaining ≤ 0 then (st, CondOut.done fo fl)
      else
        let stop : Int :=
          if remaining < (w : Int) then start + remaining else start + (w : Int)
        let st1 := storeField st tgt blk k start stop (some w)
        if k = folKey then
          match pyIntHex (pySlice st.input start stop) with
          | some n =>
            condGo tgt blk folKey rest (start + (w : Int)) (some (stop, n)) st1
          | none => (invalidate st1 (InvReason.condLen blk), CondOut.fail)
        else
          condGo tgt blk folKey rest (start + (w : Int)) (some (fo, fl)) st1
    | none =>
      let stop : Int := start + (w : Int)
      let st1 := storeField st tgt blk k start stop (some w)
      if k = folKey then
        match pyIntHex (pySlice st.input start stop) with
        | some n =>
          condGo tgt blk folKey rest (start + (w : Int)) (some (stop, n)) st1
        | none => (invalidate st1 (InvReason.condLen blk), CondOut.fail)
      else
        condGo tgt blk folKey rest (start + (w : Int)) none st1

/-- `__parse_cond`: returns the new state and the block length
(`fol_offset + fol_len - offset`), or `none` where the source returns `None`
after setting `valid = False`.  A `.block` event records the span of a
successfully parsed block. -/
def parseCond (tgt : Target) (blk : BlockKind) (fields : List (String × Nat))
    (folKey : String) (offset : Int) (st : PSt) : PSt × Option Int :=
  match condGo tgt blk folKey fields offset none st with
  | (st1, CondOut.fail) => (st1, none)
  | (st1, CondOut.nofol) => (invalidate st1 (InvReason.condLen blk), none)
  | (st1, CondOut.done fo fl) =>
    ({ st1 with events := st1.events ++ [Ev.block blk offset (fo + fl)] },
     some (fo + fl - offset))

/-- The tail of a leg iteration from the CONDITIONAL REPEAT comment on:
parse the conditional repeated block, check `cursor > leg_end`, parse the
airline block, set `cursor = leg_end`. -/
def condRPart (legEnd : Int) (st : PSt) : PSt :=
  match parseCond Target.leg BlockKind.condR condRFields
      ("following_repeated_length") st.cursor st with
  | (st1, none) => { st1 with stopped := true }
  | (st1, some crlen) =>
    let st2 := { st1 with cursor := st1.cursor + crlen }
    if st2.cursor > legEnd then { st2 with stopped := true }
    else
      let st3 := if st2.cursor < legEnd then
          storeField st2 Target.leg BlockKind.airline ("individual_airline_use")
            st2.cursor legEnd none
        else st2
      { st3 with cursor := legEnd }

/-- One iteration of the `for leg_index in range(self.leg_count)` loop. -/
def legIter (legIndex : Nat) (st : PSt) : PSt :=
  if st.stopped then st else
  let st1 := { st with legs := st.legs ++ [[]] }
  let st2 := fixedGo Target.leg BlockKind.mandR mandRFields st1.cursor st1
  let caStr := ((st2.legs.getLast?.bind
      (fun d => getAssoc d ("conditional_airline_length"))).getD [])
  match pyIntHex caStr with
  | none => { invalidate st2 InvReason.condAirLen with stopped := true }
  | some ca =>
    let st3 := { st2 with cursor := st2.cursor + (mandRLen : Int) }
    let legEnd := st3.cursor + ca
    if ca = 0 then st3
    else if legIndex = 0 then
      match parseCond Target.top BlockKind.condU condUFields
          ("following_unique_length") st3.cursor st3 with
      | (st4, none) => { st4 with stopped := true }
      | (st4, some culen) =>
        let st5 := match pyIntDec ((getAssoc st4.raw ("version_number")).getD []) with
          | some v => { st4 with vnum := some v }
          | none => invalidate st4 InvReason.versionNumber
        let st6 := { st5 with cursor := st5.cursor + culen }
        if ca = culen then st6
        else condRPart legEnd st6
    else condRPart legEnd st3

/-- The leg loop itself. -/
def legsLoop : Nat → Nat → PSt → PSt
  | 0, _, st => st
  | k + 1, i, st => legsLoop k (i + 1) (legIter i st)

/-- `__parse_security`. -/
def parseSecurity (offset : Int) (st : PSt) : PSt × Option Int :=
  let n : Int := st.input.length
  if pySlice st.input offset (offset + 1) = ['^'] then
    let st1 := storeField st Target.top BlockKind.security ("security_data_begin")
        offset (offset + 1) (some 1)
    let st2 := storeField st1 Target.top BlockKind.security ("security_data_type")
        (offset + 1) (offset + 2) (some 1)
    let st3 := storeField st2 Target.top BlockKind.security ("security_data_length")
        (offset + 2) (offset + 4) (some 2)
    match pyIntHex ((getAssoc st3.raw ("security_data_length")).getD []) with
    | none => (invalidate st3 InvReason.secLen, none)
    | some len0 =>
      let secOffset := offset + 4
      let len1 := if secOffset + len0 > n then n - secOffset else len0
      let st4 := storeField st3 Target.top BlockKind.security ("security_data")
          secOffset (secOffset + len1) none
      (st4, some ((secOffset - offset) + len1))
  else
    let st1 := storeField st Target.top BlockKind.security ("security_data")
        offset n none
    (st1, some (n - offset))

/-- The SECURITY step of `__parse` (only for `version_number >= 3`). -/
def secPhase (st : PSt) : PSt :=
  let n : Int := st.input.length
  match st.vnum with
  | some v =>
    if 3 ≤ v ∧ st.cursor < n then
      match parseSecurity st.cursor st with
      | (st1, none) => { st1 with stopped := true }
      | (st1, some slen) => { st1 with cursor := st1.cursor + slen }
    else st
  | none => st

/-- The tail of `__parse` after the leg loop: the `cursor > data_len` check,
the SECURITY step, and the LEFTOVER UNKNOWN DATA step. -/
def finish (st : PSt) : PSt :=
  if st.stopped then st else
  let n : Int := st.input.length
  if st.cursor > n then
    { invalidate st InvReason.cursorPastEnd with stopped := true }
  else
    let st1 := secPhase st
    if st1.stopped then st1
    else if st1.cursor < n then
      { st1 with unknown := some (pySlice st1.input st1.cursor n),
                 events := st1.events ++
                   [Ev.store BlockKind.trailing ("unknown") st1.cursor n none
                     (pySlice st1.input st1.cursor n)] }
    else st1

/-- The pristine state built by `__init__`. -/
def initSt (s : List Char) : PSt :=
  { input := s, raw := [], legs := [], unknown := none, legCount := none,
    vnum := none, valid := true, stopped := false, cursor := 0, events := [] }

/-- `BoardingPass(bcbp_str)`: the whole of `__parse`.  Total by construction:
every malformation only flips `valid` to `false`. -/
def parse (s : List Char) : PSt :=
  let st := fixedGo Target.top BlockKind.mandU mandUFields 0 (initSt s)
  match pyIntDec ((getAssoc st.raw ("leg_count")).getD []) with
  | none => { invalidate st InvReason.legCount with stopped := true }
  | some n =>
    let st1 := { st with legCount := some n, cursor := (mandULen : Int) }
    finish (legsLoop n.toNat 0 st1)

/-! ## Flight-date resolution (`flight_dates`) -/

/-- Gregorian leap year (as used by Python's `datetime.date`). -/
def isLeap (y : Int) : Bool := (y % 4 == 0 && y % 100 != 0) || y % 400 == 0

/-- Number of days in a year. -/
def daysInYear (y : Int) : Int := if isLeap y then 366 else 365

/-- A calendar date as (year, day-of-year), the shape used by the ordinal
arithmetic of `flight_dates`. -/
structure YDate where
  year : Int
  ord : Int
deriving DecidableEq, Repr

/-- Days in all years strictly before year `y` (proleptic Gregorian,
matching `date.toordinal`), for `y ≥ 1`. -/
def daysBeforeYear (y : Int) : Int :=
  365 * (y - 1) + (y - 1) / 4 - (y - 1) / 100 + (y - 1) / 400

/-- `date.toordinal()`: linear day number of a date. -/
def dayNum (d : YDate) : Int := daysBeforeYear d.year + d.ord

/-- A well-formed date has a day-of-year within its year. -/
def YDate.wf (d : YDate) : Prop := 1 ≤ d.ord ∧ d.ord ≤ daysInYear d.year

/-- `datetime.now() + timedelta(days=3)` on the date level (well-formed
input assumed; three days cross at most one year boundary). -/
def add3Days (d : YDate) : YDate :=
  if d.ord + 3 ≤ daysInYear d.year then ⟨d.year, d.ord + 3⟩
  else ⟨d.year + 1, d.ord + 3 - daysInYear d.year⟩

/-- The `for year in range(latest_dt_year, latest_dt_year-8, -1)` search of
`flight_dates`: `date(year, 1, 1) + timedelta(days=ordinal-1)` falls in a
different year iff the ordinal exceeds the days of that year, and the
candidate is rejected while it lies after `latest`. -/
def findFlightDate (n : Int) (latest : YDate) : Nat → Int → Option YDate
  | 0, _ => none
  | k + 1, y =>
    if daysInYear y < n then findFlightDate n latest k (y - 1)
    else if dayNum latest < dayNum ⟨y, n⟩ then findFlightDate n latest k (y - 1)
    else some ⟨y, n⟩

/-- The per-leg body of `flight_dates` (with the current date injected in
place of `datetime.now()`): parse the `flight_date` field, range-check the
ordinal, and search backward for the most recent matching year. -/
def flightDateOfLeg (fd : List Char) (now : YDate) : Option YDate :=
  match pyIntDec fd with
  | none => none
  | some n =>
    if 366 < n ∨ n < 1 then none
    else
      let latest := add3Days now
      findFlightDate n latest 8 latest.year

/-- The `flight_dates` property: one resolved date per leg. -/
def flightDates (st : PSt) (now : YDate) : List (Option YDate) :=
  st.legs.map (fun leg => flightDateOfLeg ((getAssoc leg ("flight_date")).getD []) now)

/-- Modelled from the spec: the candidate dates for day-of-year `n` in each
of the reference year, the year before and the year after, skipping years in
which the ordinal does not exist (for `n = 366` exactly the non-leap years). -/
def refCands (n : Int) (ref : YDate) : List YDate :=
  [ref.year - 1, ref.year, ref.year + 1].filterMap
    (fun y => if n ≤ daysInYear y then some (⟨y, n⟩ : YDate) else none)

/-- Modelled from the spec: keep whichever of two candidates has the smaller
absolute day difference from the reference date. -/
def pickCloser (ref : YDate) (best : Option YDate) (c : YDate) : Option YDate :=
  match best with
  | none => some c
  | some b =>
    if |dayNum c - dayNum ref| < |dayNum b - dayNum ref| then some c
    else some b

/-- Modelled from the spec: the reference-timestamp branch of flight-date
resolution (spec §4, "With a reference timestamp").  This code path is absent
from `src` — `tools.py` carries the comment `TODO: Pass relevant_date to
BoardingPass for year estimation` — so it is modelled from the spec's words:
form the candidate date for day-of-year `n` in each of the reference year,
the year before and the year after (skipping years in which the ordinal does
not exist), and pick the candidate with the smallest absolute day difference
from the reference date; absent when the ordinal is out of range or no
candidate year admits it. -/
def flightDateWithRef (n : Int) (ref : YDate) : Option YDate :=
  if n < 1 ∨ 366 < n then none
  else (refCands n ref).foldl (pickCloser ref) none

/-! ## Trace predicates and concrete inputs used by the claims -/

/-- A store event. -/
def isStoreEv : Ev → Bool
  | Ev.store _ _ _ _ _ _ => true
  | _ => false

/-- An invalidation event. -/
def isInvalidEv : Ev → Bool
  | Ev.invalid _ => true
  | _ => false

/-- Does some field-store event follow some invalidation event?  (The
stickiness property C4 states this never happens.) -/
def storeAfterInvalid : List Ev → Bool
  | [] => false
  | e :: rest => (isInvalidEv e && rest.any isStoreEv) || storeAfterInvalid rest

/-- An event that may lawfully be followed by more parsing: everything except
an invalidation, plus the one invalidation after which the source keeps
parsing (a non-numeric `version_number`). -/
def softEv : Ev → Bool
  | Ev.invalid r => r = InvReason.versionNumber
  | _ => true

/-- All events soft. -/
def allSoft (l : List Ev) : Bool := l.all softEv

/-- Every non-soft invalidation is the last event of the trace. -/
def lastOnly : List Ev → Bool
  | [] => true
  | e :: rest => if softEv e then lastOnly rest else rest.isEmpty

/-- The bounds a store event must satisfy: the stored value is exactly the
slice of the input at the recorded offsets and, for a fixed-width field, the
offsets span at most the declared width. -/
def storeOK (s : List Char) : Ev → Prop
  | Ev.store _ _ a b w v =>
    v = pySlice s a b ∧ ∀ n, w = some n → a ≤ b ∧ b ≤ a + (n : Int)
  | _ => True

/-- The dictionary a fixed block parse builds: each field of the table set
to its slice of the input, in declaration order. -/
def dictGo (s : List Char) : Int → FieldMap → List (String × Nat) → FieldMap
  | _, d, [] => d
  | start, d, (k, w) :: rest =>
    dictGo s (start + (w : Int)) (setAssoc d k (pySlice s start (start + (w : Int)))) rest

/-- The control fields a block-parsing helper leaves untouched (everything
but `raw`, `legs`, `valid` and the ghost trace). -/
def CtlEq (a b : PSt) : Prop :=
  a.input = b.input ∧ a.stopped = b.stopped ∧ a.cursor = b.cursor ∧
  a.vnum = b.vnum ∧ a.legCount = b.legCount ∧ a.unknown = b.unknown

/-- What the `__parse_cond` field loop guarantees: control state untouched,
`valid` cleared exactly on failure, and the appended trace all in-bounds
stores, ending in a (hard) invalidation exactly on failure. -/
def CondGoOut (st : PSt) (res : PSt × CondOut) : Prop :=
  CtlEq res.1 st ∧
  (res.2 = CondOut.fail → res.1.valid = false) ∧
  (res.2 ≠ CondOut.fail → res.1.valid = st.valid) ∧
  ∃ d, res.1.events = st.events ++ d ∧ (∀ e ∈ d, storeOK st.input e) ∧
    (res.2 = CondOut.fail → lastOnly d = true) ∧
    (res.2 ≠ CondOut.fail → allSoft d = true)

/-- The same contract for helpers returning a block length
(`__parse_cond` and `__parse_security` as wholes). -/
def ParseCondOut (st : PSt) (res : PSt × Option Int) : Prop :=
  CtlEq res.1 st ∧
  (res.2 = none → res.1.valid = false) ∧
  (res.2 ≠ none → res.1.valid = st.valid) ∧
  ∃ d, res.1.events = st.events ++ d ∧ (∀ e ∈ d, storeOK st.input e) ∧
    (res.2 = none → lastOnly d = true) ∧
    (res.2 ≠ none → allSoft d = true)

/-- What every step of `__parse` guarantees about the ghost trace: the input
is unchanged, and the appended events are in-bounds stores, with every
parsing-stopping invalidation at the very end of the appended trace. -/
def StepOut (st st' : PSt) : Prop :=
  st'.input = st.input ∧
  ∃ d, st'.events = st.events ++ d ∧ (∀ e ∈ d, storeOK st.input e) ∧
    (st'.stopped = true → lastOnly d = true) ∧
    (st'.stopped = false → allSoft d = true)

/-- A 23-character mandatory-unique block with leg count `'0'`. -/
def c2str : List Char := ("M0AAAAAAAAAAAAAAAAAAAAE").data

/-- An input shorter than the mandatory-unique block whose leg-count
character is a digit. -/
def c5str : List Char := ("M1").data

/-- A mandatory-unique block: `M`, leg count 1, padded name, `E`. -/
def muStr : List Char := ("M1DOE/JOHN            E").data

/-- The first 35 characters of a mandatory repeated block (all but the
`conditional_airline_length` field). -/
def mrStr : List Char := ("ABC1234DAYORDUA 0123 123Y001A0001 1").data

/-- Counterexample input for C4: `conditional_airline_length = 07`, a
Conditional Unique block `>X00` whose `version_number` is not numeric, then
a Conditional Repeated block `01Z`. -/
def c4str : List Char := muStr ++ mrStr ++ ("07").data ++ (">X00").data ++ ("01Z").data

/-- Counterexample input for C3: `conditional_airline_length = 06`, a
Conditional Unique block `>300`, a Conditional Repeated block whose
`following_repeated_length` field reads `FF` (span 257), and fourteen
trailing characters. -/
def c3str : List Char :=
  muStr ++ mrStr ++ ("06").data ++ (">300").data ++ ("FF").data ++
    ("ZZZZZZZZZZZZZZ").data

/-- Witness input for C3 (amended): `conditional_airline_length = 04` and a
Conditional Unique block `>3FF` whose following-unique length 255 places the
block end at 319, past the 64-character text. -/
def w3str : List Char := muStr ++ mrStr ++ ("04").data ++ (">3FF").data

/-- The single-leg round-trip input of C9: the mandatory-unique block
`muStr` followed by the 37-character mandatory repeated block
`mrStr ++ "00"`. -/
def c9r : List Char := mrStr ++ ("00").data

/-! ## Lemmas: flight-date resolution -/

/-- `pickCloser` never discards both candidates. -/
theorem pickCloser_isSome (ref : YDate) (best : Option YDate) (c : YDate) :
    (pickCloser ref best c).isSome := by
  cases best with
  | none => rfl
  | some b =>
    simp only [pickCloser]
    split <;> rfl

/-- What one `pickCloser` step can return. -/
theorem pickCloser_spec (ref : YDate) (acc : Option YDate) (c d : YDate)
    (h : pickCloser ref acc c = some d) :
    (d = c ∨ acc = some d) ∧
    |dayNum d - dayNum ref| ≤ |dayNum c - dayNum ref| ∧
    (∀ b, acc = some b → |dayNum d - dayNum ref| ≤ |dayNum b - dayNum ref|) := by
  cases acc with
  | none =>
    simp only [pickCloser, Option.some.injEq] at h
    subst h
    exact ⟨Or.inl rfl, le_refl _, fun b hb => by cases hb⟩
  | some b =>
    simp only [pickCloser] at h
    by_cases hlt : |dayNum c - dayNum ref| < |dayNum b - dayNum ref|
    · rw [if_pos hlt] at h
      cases h
      exact ⟨Or.inl rfl, le_refl _, fun b1 hb1 => by
        cases hb1; exact le_of_lt hlt⟩
    · rw [if_neg hlt] at h
      cases h
      exact ⟨Or.inr rfl, le_of_not_lt hlt, fun b1 hb1 => by
        cases hb1; exact le_refl _⟩

/-- Folding `pickCloser` returns a member of the list (or the accumulator)
minimizing the absolute day difference from the reference date. -/
theorem foldl_pickCloser_spec (ref : YDate) :
    ∀ (l : List YDate) (acc : Option YDate) (d : YDate),
      l.foldl (pickCloser ref) acc = some d →
      (acc = some d ∨ d ∈ l) ∧
      (∀ b, acc = some b → |dayNum d - dayNum ref| ≤ |dayNum b - dayNum ref|) ∧
      (∀ c, c ∈ l → |dayNum d - dayNum ref| ≤ |dayNum c - dayNum ref|) := by
  intro l
  induction l with
  | nil =>
    intro acc d h
    simp only [List.foldl_nil] at h
    subst h
    exact ⟨Or.inl rfl, fun b hb => by cases hb; exact le_refl _, by simp⟩
  | cons x xs ih =>
    intro acc d h
    simp only [List.foldl_cons] at h
    obtain ⟨hmem, hacc, hxs⟩ := ih (pickCloser ref acc x) d h
    obtain ⟨b1, hb1⟩ := Option.isSome_iff_exists.mp (pickCloser_isSome ref acc x)
    obtain ⟨hb1mem, hb1c, hb1acc⟩ := pickCloser_spec ref acc x b1 hb1
    have hd_b1 : |dayNum d - dayNum ref| ≤ |dayNum b1 - dayNum ref| := hacc b1 hb1
    refine ⟨?_, ?_, ?_⟩
    · rcases hmem with hpc | hin
      · rw [hb1] at hpc
        injection hpc with e
        subst e
        rcases hb1mem with rfl | hacc1
        · exact Or.inr (List.mem_cons_self _ _)
        · exact Or.inl hacc1
      · exact Or.inr (List.mem_cons_of_mem _ hin)
    · intro b hb
      exact le_trans hd_b1 (hb1acc b hb)
    · intro c hc
      rcases List.mem_cons.mp hc with rfl | hin
      · exact le_trans hd_b1 hb1c
      · exact hxs c hin

/-- Folding `pickCloser` from a present accumulator stays present. -/
theorem foldl_pickCloser_isSome (ref : YDate) :
    ∀ (l : List YDate) (acc : Option YDate), acc.isSome →
      (l.foldl (pickCloser ref) acc).isSome := by
  intro l
  induction l with
  | nil => intro acc h; simpa using h
  | cons x xs ih =>
    intro acc _
    simp only [List.foldl_cons]
    exact ih (pickCloser ref acc x) (pickCloser_isSome ref acc x)

/-- Membership in the candidate list. -/
theorem mem_refCands (n : Int) (ref : YDate) (d : YDate) :
    d ∈ refCands n ref ↔
      (d.year = ref.year - 1 ∨ d.year = ref.year ∨ d.year = ref.year + 1) ∧
      d.ord = n ∧ n ≤ daysInYear d.year := by
  simp only [refCands, List.mem_filterMap, List.mem_cons, List.mem_singleton,
    List.not_mem_nil, or_false]
  constructor
  · rintro ⟨y, hy, hf⟩
    by_cases hle : n ≤ daysInYear y
    · simp only [hle, if_pos] at hf
      obtain rfl : (⟨y, n⟩ : YDate) = d := Option.some.inj hf
      exact ⟨hy, rfl, hle⟩
    · simp [hle] at hf
  · rintro ⟨hy, rfl, hle⟩
    exact ⟨d.year, hy, by simp [hle]⟩

/-- C1: with a reference timestamp (spec-modelled: this code path is absent
from `src`), a resolved flight date is a candidate for the leg's day-of-year
ordinal in the reference year, the year before or the year after (candidates
exist only in years containing the ordinal — for ordinal 366 exactly leap
years), and it minimizes the absolute day difference from the reference
date among all such candidates; the result is absent exactly when the
ordinal is out of range or no candidate year admits the ordinal. -/
theorem claim1_flightDateWithRef (n : Int) (ref : YDate) :
    (∀ d, flightDateWithRef n ref = some d →
      1 ≤ n ∧ n ≤ 366 ∧ d.ord = n ∧
      (d.year = ref.year - 1 ∨ d.year = ref.year ∨ d.year = ref.year + 1) ∧
      n ≤ daysInYear d.year ∧
      (∀ y, (y = ref.year - 1 ∨ y = ref.year ∨ y = ref.year + 1) →
        n ≤ daysInYear y →
        |dayNum d - dayNum ref| ≤ |dayNum ⟨y, n⟩ - dayNum ref|)) ∧
    (flightDateWithRef n ref = none →
      (n < 1 ∨ 366 < n) ∨
      (∀ y, (y = ref.year - 1 ∨ y = ref.year ∨ y = ref.year + 1) →
        daysInYear y < n)) := by
  constructor
  · intro d h
    unfold flightDateWithRef at h
    by_cases hr : n < 1 ∨ 366 < n
    · simp [hr] at h
    · simp only [hr, if_neg, not_false_iff] at h
      push_neg at hr
      obtain ⟨hmem, _, hmin⟩ := foldl_pickCloser_spec ref (refCands n ref) none d h
      have hd : d ∈ refCands n ref := by
        rcases hmem with h1 | h2
        · cases h1
        · exact h2
      obtain ⟨hy, hord, hle⟩ := (mem_refCands n ref d).mp hd
      refine ⟨hr.1, hr.2, hord, hy, hle, ?_⟩
      intro y hy2 hle2
      exact hmin ⟨y, n⟩ ((mem_refCands n ref ⟨y, n⟩).mpr ⟨hy2, rfl, hle2⟩)
  · intro h
    unfold flightDateWithRef at h
    by_cases hr : n < 1 ∨ 366 < n
    · exact Or.inl hr
    · simp only [hr, if_neg, not_false_iff] at h
      refine Or.inr ?_
      intro y hy
      by_contra hlt
      push_neg at hlt
      have hmem : (⟨y, n⟩ : YDate) ∈ refCands n ref :=
        (mem_refCands n ref ⟨y, n⟩).mpr ⟨hy, rfl, hlt⟩
      have : ((refCands n ref).foldl (pickCloser ref) none).isSome := by
        rcases hx : refCands n ref with _ | ⟨x, xs⟩
        · rw [hx] at hmem; cases hmem
        · simp only [List.foldl_cons]
          exact foldl_pickCloser_isSome ref xs (pickCloser ref none x) rfl
      rw [h] at this
      cases this

/-- Witness for C1: for reference date 2024-12-31 (day-of-year 366 of a leap
year) and ordinal 366, the chosen candidate is 2024-12-31 itself, and the
theorem's minimality conclusion holds there. -/
theorem claim1_witness :
    flightDateWithRef 366 ⟨2024, 366⟩ = some ⟨2024, 366⟩ ∧
    (1 ≤ (366 : Int) ∧ (366 : Int) ≤ 366 ∧ (⟨2024, 366⟩ : YDate).ord = 366 ∧
      ((⟨2024, 366⟩ : YDate).year = 2024 - 1 ∨
        (⟨2024, 366⟩ : YDate).year = 2024 ∨
        (⟨2024, 366⟩ : YDate).year = 2024 + 1) ∧
      (366 : Int) ≤ daysInYear (⟨2024, 366⟩ : YDate).year ∧
      (∀ y, (y = 2024 - 1 ∨ y = 2024 ∨ y = 2024 + 1) →
        (366 : Int) ≤ daysInYear y →
        |dayNum ⟨2024, 366⟩ - dayNum ⟨2024, 366⟩| ≤
          |dayNum ⟨y, 366⟩ - dayNum ⟨2024, 366⟩|)) :=
  ⟨by decide, (claim1_flightDateWithRef 366 ⟨2024, 366⟩).1 ⟨2024, 366⟩ (by decide)⟩

/-- A date returned by the backward year search is the most recent year in
the searched window whose day-of-year exists and does not exceed `latest`. -/
theorem findFlightDate_some (n : Int) (latest : YDate) :
    ∀ (k : Nat) (y : Int) (d : YDate), findFlightDate n latest k y = some d →
      d.ord = n ∧ y - k < d.year ∧ d.year ≤ y ∧ n ≤ daysInYear d.year ∧
      dayNum d ≤ dayNum latest ∧
      (∀ z, d.year < z → z ≤ y →
        daysInYear z < n ∨ dayNum latest < dayNum ⟨z, n⟩) := by
  intro k
  induction k with
  | zero => intro y d h; cases h
  | succ k ih =>
    intro y d h
    unfold findFlightDate at h
    by_cases h1 : daysInYear y < n
    · rw [if_pos h1] at h
      obtain ⟨hord, hlo, hhi, hex, hle, hmax⟩ := ih (y - 1) d h
      refine ⟨hord, by omega, by omega, hex, hle, ?_⟩
      intro z hz1 hz2
      by_cases hzy : z = y
      · exact Or.inl (hzy ▸ h1)
      · exact hmax z hz1 (by omega)
    · rw [if_neg h1] at h
      by_cases h2 : dayNum latest < dayNum ⟨y, n⟩
      · rw [if_pos h2] at h
        obtain ⟨hord, hlo, hhi, hex, hle, hmax⟩ := ih (y - 1) d h
        refine ⟨hord, by omega, by omega, hex, hle, ?_⟩
        intro z hz1 hz2
        by_cases hzy : z = y
        · exact Or.inr (hzy ▸ h2)
        · exact hmax z hz1 (by omega)
      · rw [if_neg h2] at h
        obtain rfl : (⟨y, n⟩ : YDate) = d := Option.some.inj h
        have hy : (⟨y, n⟩ : YDate).year = y := rfl
        refine ⟨rfl, by omega, le_refl _, le_of_not_lt h1, le_of_not_lt h2, ?_⟩
        intro z hz1 hz2
        omega

/-- When the backward year search fails, no year in the searched window
qualifies. -/
theorem findFlightDate_none (n : Int) (latest : YDate) :
    ∀ (k : Nat) (y : Int), findFlightDate n latest k y = none →
      ∀ z, y - k < z → z ≤ y →
        daysInYear z < n ∨ dayNum latest < dayNum ⟨z, n⟩ := by
  intro k
  induction k with
  | zero => intro y _ z hz1 hz2; omega
  | succ k ih =>
    intro y h z hz1 hz2
    unfold findFlightDate at h
    by_cases h1 : daysInYear y < n
    · rw [if_pos h1] at h
      by_cases hzy : z = y
      · exact Or.inl (hzy ▸ h1)
      · exact ih (y - 1) h z (by omega) (by omega)
    · rw [if_neg h1] at h
      by_cases h2 : dayNum latest < dayNum ⟨y, n⟩
      · rw [if_pos h2] at h
        by_cases hzy : z = y
        · exact Or.inr (hzy ▸ h2)
        · exact ih (y - 1) h z (by omega) (by omega)
      · rw [if_neg h2] at h
        cases h

/-- Unfolding `flightDateOfLeg` once the ordinal has parsed. -/
theorem flightDateOfLeg_parsed (fd : List Char) (now : YDate) (n : Int)
    (hn : pyIntDec fd = some n) :
    flightDateOfLeg fd now =
      if 366 < n ∨ n < 1 then none
      else findFlightDate n (add3Days now) 8 (add3Days now).year := by
  unfold flightDateOfLeg
  rw [hn]

/-- C8: without a reference timestamp (the current date injected for
`datetime.now()`), an out-of-range or unparseable day-of-year resolves to no
date; a resolved date is the most recent year within the 8-year window below
the year of now+3 days in which the ordinal exists and whose date does not
exceed now+3 days; and a `none` result for an in-range ordinal means no year
of the window qualifies. -/
theorem claim8_flightDateOfLeg (fd : List Char) (now : YDate) :
    (pyIntDec fd = none → flightDateOfLeg fd now = none) ∧
    (∀ n, pyIntDec fd = some n → (n < 1 ∨ 366 < n) →
      flightDateOfLeg fd now = none) ∧
    (∀ d, flightDateOfLeg fd now = some d →
      ∃ n, pyIntDec fd = some n ∧ 1 ≤ n ∧ n ≤ 366 ∧ d.ord = n ∧
        (add3Days now).year - 8 < d.year ∧ d.year ≤ (add3Days now).year ∧
        n ≤ daysInYear d.year ∧ dayNum d ≤ dayNum (add3Days now) ∧
        (∀ z, d.year < z → z ≤ (add3Days now).year →
          daysInYear z < n ∨ dayNum (add3Days now) < dayNum ⟨z, n⟩)) ∧
    (∀ n, pyIntDec fd = some n → 1 ≤ n → n ≤ 366 →
      flightDateOfLeg fd now = none →
      ∀ z, (add3Days now).year - 8 < z → z ≤ (add3Days now).year →
        daysInYear z < n ∨ dayNum (add3Days now) < dayNum ⟨z, n⟩) := by
  refine ⟨?_, ?_, ?_, ?_⟩
  · intro h
    simp [flightDateOfLeg, h]
  · intro n hn hr
    have : 366 < n ∨ n < 1 := hr.symm
    simp [flightDateOfLeg, hn, this]
  · intro d h
    cases hn : pyIntDec fd with
    | none => rw [flightDateOfLeg] at h; rw [hn] at h; cases h
    | some n =>
      rw [flightDateOfLeg_parsed fd now n hn] at h
      by_cases hr : 366 < n ∨ n < 1
      · rw [if_pos hr] at h; cases h
      · rw [if_neg hr] at h
        push_neg at hr
        obtain ⟨hord, hlo, hhi, hex, hle, hmax⟩ :=
          findFlightDate_some n (add3Days now) 8 (add3Days now).year d h
        exact ⟨n, rfl, by omega, by omega, hord, by omega, hhi, hex, hle, hmax⟩
  · intro n hn h1 h2 h
    rw [flightDateOfLeg_parsed fd now n hn] at h
    have hr : ¬(366 < n ∨ n < 1) := by omega
    rw [if_neg hr] at h
    exact findFlightDate_none n (add3Days now) 8 (add3Days now).year h

/-- Witness for C8: ordinal `"001"` with "now" fixed at 2025-06-15 (day 166
of 2025) resolves to 2025-01-01 (the most recent matching year within the
forward-tolerance window), and the theorem's conclusions hold there. -/
theorem claim8_witness :
    flightDateOfLeg (['0', '0', '1']) ⟨2025, 166⟩ = some ⟨2025, 1⟩ ∧
    (∃ n, pyIntDec (['0', '0', '1']) = some n ∧ 1 ≤ n ∧ n ≤ 366 ∧
      (⟨2025, 1⟩ : YDate).ord = n ∧
      (add3Days ⟨2025, 166⟩).year - 8 < (⟨2025, 1⟩ : YDate).year ∧
      (⟨2025, 1⟩ : YDate).year ≤ (add3Days ⟨2025, 166⟩).year ∧
      n ≤ daysInYear (⟨2025, 1⟩ : YDate).year ∧
      dayNum ⟨2025, 1⟩ ≤ dayNum (add3Days ⟨2025, 166⟩) ∧
      (∀ z, (⟨2025, 1⟩ : YDate).year < z → z ≤ (add3Days ⟨2025, 166⟩).year →
        daysInYear z < n ∨ dayNum (add3Days ⟨2025, 166⟩) < dayNum ⟨z, n⟩)) :=
  ⟨by decide,
   (claim8_flightDateOfLeg (['0', '0', '1']) ⟨2025, 166⟩).2.2.1 ⟨2025, 1⟩
     (by decide)⟩

/-! ## Lemmas: self-describing block truncation -/

/-- C6: in a self-describing block, once the hex length field has been read
(`fol = some (fo, fl)`), a field whose declared width exceeds the remaining
size `fo + fl - start` is truncated to exactly the remaining size and is the
last field stored (no later field of the declaration gets a key); a
non-positive remaining size stops the block's field loop before storing
anything further; in both cases the block parse still succeeds
(`CondOut.done`, not a failure), so the document is not invalidated by the
overrun itself. -/
theorem claim6_truncation (tgt : Target) (blk : BlockKind) (folKey k : String)
    (w : Nat) (rest : List (String × Nat)) (start fo fl : Int) (st : PSt)
    (hk : k ≠ folKey) :
    (fo + fl - start ≤ 0 →
      condGo tgt blk folKey ((k, w) :: rest) start (some (fo, fl)) st =
        (st, CondOut.done fo fl)) ∧
    (0 < fo + fl - start → fo + fl - start < (w : Int) →
      condGo tgt blk folKey ((k, w) :: rest) start (some (fo, fl)) st =
        (storeField st tgt blk k start (start + (fo + fl - start)) (some w),
         CondOut.done fo fl)) := by
  constructor
  · intro h0
    unfold condGo
    dsimp only
    rw [if_pos h0]
  · intro h0 hw
    unfold condGo
    dsimp only
    rw [if_neg (not_le.mpr h0), if_pos hw, if_neg hk]
    cases rest with
    | nil => rfl
    | cons p r2 =>
      obtain ⟨k2, w2⟩ := p
      unfold condGo
      dsimp only
      rw [if_pos (by omega : fo + fl - (start + (w : Int)) ≤ 0)]

/-- Witness for C6: a concrete truncation (remaining size 2 against declared
width 4 for `boarding_pass_date`) and a concrete non-positive remaining size,
both via the theorem. -/
theorem claim6_witness :
    condGo Target.top BlockKind.condU ("following_unique_length")
        ([("boarding_pass_date", 4), ("document_type", 1)]) 10 (some (8, 4))
        (initSt (['0', '1', '2', '3', '4', '5', '6', '7', '8', '9', 'A', 'B',
          'C', 'D', 'E', 'F'])) =
      (storeField
        (initSt (['0', '1', '2', '3', '4', '5', '6', '7', '8', '9', 'A', 'B',
          'C', 'D', 'E', 'F']))
        Target.top BlockKind.condU ("boarding_pass_date") 10 (10 + (8 + 4 - 10))
        (some 4),
       CondOut.done 8 4) ∧
    condGo Target.top BlockKind.condU ("following_unique_length")
        ([("boarding_pass_date", 4), ("document_type", 1)]) 10 (some (8, 0))
        (initSt (['0', '1', '2', '3', '4', '5', '6', '7', '8', '9', 'A', 'B',
          'C', 'D', 'E', 'F'])) =
      (initSt (['0', '1', '2', '3', '4', '5', '6', '7', '8', '9', 'A', 'B',
        'C', 'D', 'E', 'F']),
       CondOut.done 8 0) :=
  ⟨(claim6_truncation Target.top BlockKind.condU ("following_unique_length")
      ("boarding_pass_date") 4 ([("document_type", 1)]) 10 8 4 _
      (by decide)).2 (by decide) (by decide),
   (claim6_truncation Target.top BlockKind.condU ("following_unique_length")
      ("boarding_pass_date") 4 ([("document_type", 1)]) 10 8 0 _
      (by decide)).1 (by decide)⟩

/-! ## Basic lemmas: slices, event lists, state helpers -/

theorem ctlEq_refl (a : PSt) : CtlEq a a := ⟨rfl, rfl, rfl, rfl, rfl, rfl⟩

theorem ctlEq_trans {a b c : PSt} (h1 : CtlEq a b) (h2 : CtlEq b c) : CtlEq a c :=
  ⟨h1.1.trans h2.1, h1.2.1.trans h2.2.1, h1.2.2.1.trans h2.2.2.1,
   h1.2.2.2.1.trans h2.2.2.2.1, h1.2.2.2.2.1.trans h2.2.2.2.2.1,
   h1.2.2.2.2.2.trans h2.2.2.2.2.2⟩

/-- A slice starting at or past the end of the string is empty. -/
theorem pySlice_empty_of_le (s : List Char) (a b : Int)
    (h : (s.length : Int) ≤ a) : pySlice s a b = [] := by
  unfold pySlice
  dsimp only
  rw [if_neg (by omega : ¬ a < 0)]
  rw [(by omega : min a.toNat s.length = s.length)]
  exact List.drop_eq_nil_of_le ((s.take_prefix _).length_le)

/-- A slice spanning at most `w` positions has length at most `w`. -/
theorem pySlice_length_le (s : List Char) (a b : Int) (w : Nat)
    (hab : a ≤ b) (h : b ≤ a + (w : Int)) : (pySlice s a b).length ≤ w := by
  unfold pySlice
  dsimp only
  simp only [List.length_drop, List.length_take]
  split_ifs <;> omega

/-- Every slice is a contiguous infix of the string. -/
theorem pySlice_isInfix (s : List Char) (a b : Int) : pySlice s a b <:+: s := by
  unfold pySlice
  dsimp only
  exact ((List.drop_suffix _ _).isInfix).trans ((List.take_prefix _ _).isInfix)

/-- A slice entirely inside the right part of an append. -/
theorem pySlice_append_right (u r : List Char) (a b : Int)
    (ha : (u.length : Int) ≤ a) (hb : (u.length : Int) ≤ b) :
    pySlice (u ++ r) a b = pySlice r (a - u.length) (b - u.length) := by
  unfold pySlice
  dsimp only
  rw [if_neg (by omega : ¬ a < 0), if_neg (by omega : ¬ b < 0),
    if_neg (by omega : ¬ a - (u.length : Int) < 0),
    if_neg (by omega : ¬ b - (u.length : Int) < 0)]
  simp only [List.length_append]
  rw [(by omega : min a.toNat (u.length + r.length) =
        u.length + min (a - (u.length : Int)).toNat r.length),
    (by omega : min b.toNat (u.length + r.length) =
        u.length + min (b - (u.length : Int)).toNat r.length),
    List.take_append, List.drop_append]

/-- A slice entirely inside the left part of an append. -/
theorem pySlice_append_left (u r : List Char) (a b : Int)
    (ha : 0 ≤ a) (hb : 0 ≤ b) (hbu : b ≤ (u.length : Int)) :
    pySlice (u ++ r) a b = pySlice u a b := by
  unfold pySlice
  dsimp only
  rw [if_neg (by omega : ¬ a < 0), if_neg (by omega : ¬ b < 0),
    if_neg (by omega : ¬ a < 0), if_neg (by omega : ¬ b < 0)]
  simp only [List.length_append]
  rw [(by omega : min b.toNat (u.length + r.length) = b.toNat),
    (by omega : min b.toNat u.length = b.toNat),
    List.take_append_of_le_length (by omega : b.toNat ≤ u.length)]
  by_cases hc : a.toNat ≤ u.length
  · rw [(by omega : min a.toNat (u.length + r.length) = a.toNat),
      (by omega : min a.toNat u.length = a.toNat)]
  · rw [List.drop_eq_nil_of_le, List.drop_eq_nil_of_le]
    · calc (u.take b.toNat).length ≤ b.toNat := (List.length_take_le _ _)
        _ ≤ min a.toNat u.length := by omega
    · calc (u.take b.toNat).length ≤ b.toNat := (List.length_take_le _ _)
        _ ≤ min a.toNat (u.length + r.length) := by omega

theorem pyIntHex_nil : pyIntHex [] = none := rfl

theorem pyIntDec_nil : pyIntDec [] = none := rfl

/-- `allSoft` distributes over append. -/
theorem allSoft_append (l₁ l₂ : List Ev) :
    allSoft (l₁ ++ l₂) = (allSoft l₁ && allSoft l₂) := List.all_append

/-- `lastOnly` ignores a soft prefix. -/
theorem lastOnly_append (l₁ l₂ : List Ev) (h : allSoft l₁ = true) :
    lastOnly (l₁ ++ l₂) = lastOnly l₂ := by
  induction l₁ with
  | nil => rfl
  | cons e es ih =>
    simp only [allSoft, List.all_cons, Bool.and_eq_true] at h
    simp only [List.cons_append, lastOnly, h.1, if_pos]
    exact ih h.2

/-- A trace of soft events satisfies `lastOnly`. -/
theorem lastOnly_of_allSoft (l : List Ev) (h : allSoft l = true) :
    lastOnly l = true := by
  induction l with
  | nil => rfl
  | cons e es ih =>
    simp only [allSoft, List.all_cons, Bool.and_eq_true] at h
    simp only [lastOnly, h.1, if_pos]
    exact ih h.2

/-- A soft trace followed by one final event satisfies `lastOnly`. -/
theorem lastOnly_append_single (l : List Ev) (e : Ev) (h : allSoft l = true) :
    lastOnly (l ++ [e]) = true := by
  rw [lastOnly_append l [e] h]
  unfold lastOnly
  split
  · rfl
  · rfl

/-- `updateLast` on a list ending in `d` rewrites exactly `d`. -/
theorem updateLast_append (l : List FieldMap) (d : FieldMap) (k : String)
    (v : List Char) : updateLast (l ++ [d]) k v = l ++ [setAssoc d k v] := by
  induction l with
  | nil => rfl
  | cons x xs ih =>
    cases xs with
    | nil => rfl
    | cons y ys =>
      show x :: updateLast ((y :: ys) ++ [d]) k v = _
      rw [ih]
      rfl

/-! ## Lemmas: `storeField`, `invalidate` -/

theorem storeField_ctl (st : PSt) (tgt : Target) (blk : BlockKind)
    (k : String) (a b : Int) (w : Option Nat) :
    CtlEq (storeField st tgt blk k a b w) st := by
  cases tgt <;> exact ⟨rfl, rfl, rfl, rfl, rfl, rfl⟩

theorem storeField_valid (st : PSt) (tgt : Target) (blk : BlockKind)
    (k : String) (a b : Int) (w : Option Nat) :
    (storeField st tgt blk k a b w).valid = st.valid := by
  cases tgt <;> rfl

theorem storeField_events (st : PSt) (tgt : Target) (blk : BlockKind)
    (k : String) (a b : Int) (w : Option Nat) :
    (storeField st tgt blk k a b w).events =
      st.events ++ [Ev.store blk k a b w (pySlice st.input a b)] := by
  cases tgt <;> rfl

theorem invalidate_ctl (st : PSt) (r : InvReason) :
    CtlEq (invalidate st r) st := ⟨rfl, rfl, rfl, rfl, rfl, rfl⟩

theorem invalidate_valid (st : PSt) (r : InvReason) :
    (invalidate st r).valid = false := rfl

theorem invalidate_events (st : PSt) (r : InvReason) :
    (invalidate st r).events = st.events ++ [Ev.invalid r] := rfl

/-! ## Lemmas: fixed blocks -/

/-- `__parse_mand_u` / `__parse_mand_r` leave the control state and `valid`
untouched and append only in-bounds store events. -/
theorem fixedGo_spec (tgt : Target) (blk : BlockKind) :
    ∀ (fs : List (String × Nat)) (start : Int) (st : PSt),
      CtlEq (fixedGo tgt blk fs start st) st ∧
      (fixedGo tgt blk fs start st).valid = st.valid ∧
      ∃ d, (fixedGo tgt blk fs start st).events = st.events ++ d ∧
        (∀ e ∈ d, storeOK st.input e) ∧ allSoft d = true := by
  intro fs
  induction fs with
  | nil =>
    intro start st
    exact ⟨ctlEq_refl _, rfl, [], by simp [fixedGo], by simp, rfl⟩
  | cons f rest ih =>
    intro start st
    obtain ⟨k, w⟩ := f
    obtain ⟨hctl, hval, d, hev, hok, hsoft⟩ :=
      ih (start + (w : Int)) (storeField st tgt blk k start (start + (w : Int)) (some w))
    have hsc := storeField_ctl st tgt blk k start (start + (w : Int)) (some w)
    refine ⟨ctlEq_trans hctl hsc, ?_, ?_⟩
    · rw [show fixedGo tgt blk ((k, w) :: rest) start st =
        fixedGo tgt blk rest (start + (w : Int))
          (storeField st tgt blk k start (start + (w : Int)) (some w)) from rfl,
        hval, storeField_valid]
    · refine ⟨Ev.store blk k start (start + (w : Int)) (some w)
          (pySlice st.input start (start + (w : Int))) :: d, ?_, ?_, ?_⟩
      · rw [show fixedGo tgt blk ((k, w) :: rest) start st =
          fixedGo tgt blk rest (start + (w : Int))
            (storeField st tgt blk k start (start + (w : Int)) (some w)) from rfl,
          hev, storeField_events]
        simp
      · intro e he
        rcases List.mem_cons.mp he with rfl | he2
        · exact ⟨rfl, fun n hn => by cases hn; omega⟩
        · have := hok e he2
          rwa [hsc.1] at this
      · simpa [allSoft, softEv] using hsoft

/-! ## Lemmas: the `__parse_cond` field loop -/

/-- Prefixing one in-bounds store preserves the `__parse_cond` contract. -/
theorem condGoOut_store (st : PSt) (tgt : Target) (blk : BlockKind)
    (k : String) (a b : Int) (w : Nat) (res : PSt × CondOut)
    (hab : a ≤ b) (hbw : b ≤ a + (w : Int))
    (h : CondGoOut (storeField st tgt blk k a b (some w)) res) :
    CondGoOut st res := by
  obtain ⟨hctl, hf, hnf, d, hev, hok, hlast, hsoft⟩ := h
  have hsc := storeField_ctl st tgt blk k a b (some w)
  refine ⟨ctlEq_trans hctl hsc, hf, ?_, ?_⟩
  · intro hne
    rw [hnf hne, storeField_valid]
  · refine ⟨Ev.store blk k a b (some w) (pySlice st.input a b) :: d, ?_, ?_, ?_, ?_⟩
    · rw [hev, storeField_events]
      simp
    · intro e he
      rcases List.mem_cons.mp he with rfl | he2
      · exact ⟨rfl, fun n hn => by cases hn; exact ⟨hab, hbw⟩⟩
      · have := hok e he2
        rwa [hsc.1] at this
    · intro hfail
      simpa [lastOnly, softEv] using hlast hfail
    · intro hne
      simpa [allSoft, softEv] using hsoft hne

/-- A step of the `__parse_cond` loop that returns without failing and
without touching the state. -/
theorem condGoOut_here (st : PSt) (out : CondOut) (h : out ≠ CondOut.fail) :
    CondGoOut st (st, out) :=
  ⟨ctlEq_refl _, fun hf => absurd hf h, fun _ => rfl, [], by simp, by simp,
   fun hf => absurd hf h, fun _ => rfl⟩

/-- The failing step of the `__parse_cond` loop: the bad length field is
stored, then the document is invalidated and the loop returns. -/
theorem condGoOut_fail_store (st : PSt) (tgt : Target) (blk : BlockKind)
    (k : String) (a b : Int) (w : Nat) (r : InvReason)
    (hab : a ≤ b) (hbw : b ≤ a + (w : Int)) :
    CondGoOut st (invalidate (storeField st tgt blk k a b (some w)) r,
      CondOut.fail) := by
  have hsc := storeField_ctl st tgt blk k a b (some w)
  refine ⟨ctlEq_trans (invalidate_ctl _ _) hsc, fun _ => invalidate_valid _ _,
    fun hne => absurd rfl hne,
    [Ev.store blk k a b (some w) (pySlice st.input a b), Ev.invalid r], ?_, ?_, ?_, ?_⟩
  · rw [invalidate_events, storeField_events]
    simp
  · intro e he
    rcases List.mem_cons.mp he with rfl | he2
    · exact ⟨rfl, fun n hn => by cases hn; exact ⟨hab, hbw⟩⟩
    · rcases List.mem_singleton.mp he2 with rfl
      trivial
  · intro _
    by_cases hr : r = InvReason.versionNumber
    · simp [lastOnly, softEv, hr]
    · simp [lastOnly, softEv, hr]
  · intro hne
    exact absurd rfl hne

/-- The `__parse_cond` field loop satisfies its contract for every field
list, start offset, length-field state and parser state. -/
theorem condGo_spec (tgt : Target) (blk : BlockKind) (folKey : String) :
    ∀ (fs : List (String × Nat)) (start : Int) (fol : Option (Int × Int))
      (st : PSt), CondGoOut st (condGo tgt blk folKey fs start fol st) := by
  intro fs
  induction fs with
  | nil =>
    intro start fol st
    cases fol with
    | none => exact condGoOut_here st CondOut.nofol (by simp)
    | some p =>
      obtain ⟨fo, fl⟩ := p
      exact condGoOut_here st (CondOut.done fo fl) (by simp)
  | cons f rest ih =>
    intro start fol st
    obtain ⟨k, w⟩ := f
    cases fol with
    | some p =>
      obtain ⟨fo, fl⟩ := p
      show CondGoOut st (condGo tgt blk folKey ((k, w) :: rest) start
        (some (fo, fl)) st)
      unfold condGo
      dsimp only
      by_cases h0 : fo + fl - start ≤ 0
      · rw [if_pos h0]
        exact condGoOut_here st (CondOut.done fo fl) (by simp)
      · rw [if_neg h0]
        by_cases hw : fo + fl - start < (w : Int)
        · rw [if_pos hw]
          by_cases hk : k = folKey
          · rw [if_pos hk]
            cases hx : pyIntHex (pySlice st.input start (start + (fo + fl - start))) with
            | some n =>
              exact condGoOut_store st tgt blk k start (start + (fo + fl - start)) w _
                (by omega) (by omega) (ih _ _ _)
            | none =>
              exact condGoOut_fail_store st tgt blk k start
                (start + (fo + fl - start)) w _ (by omega) (by omega)
          · rw [if_neg hk]
            exact condGoOut_store st tgt blk k start (start + (fo + fl - start)) w _
              (by omega) (by omega) (ih _ _ _)
        · rw [if_neg hw]
          by_cases hk : k = folKey
          · rw [if_pos hk]
            cases hx : pyIntHex (pySlice st.input start (start + (w : Int))) with
            | some n =>
              exact condGoOut_store st tgt blk k start (start + (w : Int)) w _
                (by omega) (by omega) (ih _ _ _)
            | none =>
              exact condGoOut_fail_store st tgt blk k start (start + (w : Int)) w _
                (by omega) (by omega)
          · rw [if_neg hk]
            exact condGoOut_store st tgt blk k start (start + (w : Int)) w _
              (by omega) (by omega) (ih _ _ _)
    | none =>
      show CondGoOut st (condGo tgt blk folKey ((k, w) :: rest) start none st)
      unfold condGo
      dsimp only
      by_cases hk : k = folKey
      · rw [if_pos hk]
        cases hx : pyIntHex (pySlice st.input start (start + (w : Int))) with
        | some n =>
          exact condGoOut_store st tgt blk k start (start + (w : Int)) w _
            (by omega) (by omega) (ih _ _ _)
        | none =>
          exact condGoOut_fail_store st tgt blk k start (start + (w : Int)) w _
            (by omega) (by omega)
      · rw [if_neg hk]
        exact condGoOut_store st tgt blk k start (start + (w : Int)) w _
          (by omega) (by omega) (ih _ _ _)

/-! ## Lemmas: `__parse_cond` and `__parse_security` as wholes -/

/-- Prefixing one in-bounds store preserves the block contract. -/
theorem parseCondOut_store {st : PSt} {tgt : Target} {blk : BlockKind}
    {k : String} {a b : Int} {w : Option Nat} {res : PSt × Option Int}
    (hw : ∀ n, w = some n → a ≤ b ∧ b ≤ a + (n : Int))
    (h : ParseCondOut (storeField st tgt blk k a b w) res) :
    ParseCondOut st res := by
  obtain ⟨hctl, hf, hnf, d, hev, hok, hlast, hsoft⟩ := h
  have hsc := storeField_ctl st tgt blk k a b w
  refine ⟨ctlEq_trans hctl hsc, hf, ?_, ?_⟩
  · intro hne
    rw [hnf hne, storeField_valid]
  · refine ⟨Ev.store blk k a b w (pySlice st.input a b) :: d, ?_, ?_, ?_, ?_⟩
    · rw [hev, storeField_events]
      simp
    · intro e he
      rcases List.mem_cons.mp he with rfl | he2
      · exact ⟨rfl, hw⟩
      · have := hok e he2
        rwa [hsc.1] at this
    · intro hfail
      simpa [lastOnly, softEv] using hlast hfail
    · intro hne
      simpa [allSoft, softEv] using hsoft hne

/-- A failing tail: invalidate and return `None`. -/
theorem parseCondOut_fail_invalid (st : PSt) (r : InvReason) :
    ParseCondOut st (invalidate st r, none) := by
  refine ⟨invalidate_ctl _ _, fun _ => invalidate_valid _ _,
    fun hne => absurd rfl hne, [Ev.invalid r], invalidate_events _ _, ?_, ?_, ?_⟩
  · intro e he
    rcases List.mem_singleton.mp he with rfl
    trivial
  · intro _
    by_cases hr : r = InvReason.versionNumber
    · simp [lastOnly, softEv, hr]
    · simp [lastOnly, softEv, hr]
  · intro hne
    exact absurd rfl hne

/-- A successful tail ending in one final store. -/
theorem parseCondOut_last_store (st : PSt) (tgt : Target) (blk : BlockKind)
    (k : String) (a b : Int) (w : Option Nat)
    (hw : ∀ n, w = some n → a ≤ b ∧ b ≤ a + (n : Int)) (len : Int) :
    ParseCondOut st (storeField st tgt blk k a b w, some len) := by
  refine ⟨storeField_ctl _ _ _ _ _ _ _, fun hc => absurd hc (by simp),
    fun _ => storeField_valid _ _ _ _ _ _ _,
    [Ev.store blk k a b w (pySlice st.input a b)], storeField_events _ _ _ _ _ _ _,
    ?_, fun hc => absurd hc (by simp), fun _ => rfl⟩
  intro e he
  rcases List.mem_singleton.mp he with rfl
  exact ⟨rfl, hw⟩

/-- A successful tail with no further events. -/
theorem parseCondOut_done (st : PSt) (len : Int) :
    ParseCondOut st (st, some len) :=
  ⟨ctlEq_refl _, fun hc => absurd hc (by simp), fun _ => rfl, [], by simp, by simp,
   fun hc => absurd hc (by simp), fun _ => rfl⟩

/-- `__parse_cond` satisfies the block contract. -/
theorem parseCond_spec (tgt : Target) (blk : BlockKind)
    (fs : List (String × Nat)) (folKey : String) (offset : Int) (st : PSt) :
    ParseCondOut st (parseCond tgt blk fs folKey offset st) := by
  unfold parseCond
  have h := condGo_spec tgt blk folKey fs offset none st
  cases hr : condGo tgt blk folKey fs offset none st with
  | mk st1 out =>
    rw [hr] at h
    obtain ⟨hctl, hf, hnf, d, hev, hok, hlast, hsoft⟩ := h
    cases out with
    | fail =>
      exact ⟨hctl, fun _ => hf rfl, fun hne => absurd rfl hne, d, hev, hok,
        fun _ => hlast rfl, fun hne => absurd rfl hne⟩
    | nofol =>
      refine ⟨ctlEq_trans (invalidate_ctl _ _) hctl, fun _ => invalidate_valid _ _,
        fun hne => absurd rfl hne,
        d ++ [Ev.invalid (InvReason.condLen blk)], ?_, ?_, ?_,
        fun hne => absurd rfl hne⟩
      · rw [invalidate_events, hev]
        simp
      · intro e he
        rcases List.mem_append.mp he with he1 | he2
        · exact hok e he1
        · rcases List.mem_singleton.mp he2 with rfl
          trivial
      · intro _
        exact lastOnly_append_single d _
          (hsoft (fun hh => CondOut.noConfusion hh))
    | done fo fl =>
      dsimp only
      refine ⟨ctlEq_trans ⟨rfl, rfl, rfl, rfl, rfl, rfl⟩ hctl,
        fun hc => absurd hc (by simp), ?_,
        d ++ [Ev.block blk offset (fo + fl)], ?_, ?_, fun hc => absurd hc (by simp), ?_⟩
      · intro _
        exact hnf (fun hh => CondOut.noConfusion hh)
      · rw [show ({ st1 with events := st1.events ++ [Ev.block blk offset (fo + fl)] } :
            PSt).events = st1.events ++ [Ev.block blk offset (fo + fl)] from rfl,
          hev]
        simp
      · intro e he
        rcases List.mem_append.mp he with he1 | he2
        · exact hok e he1
        · rcases List.mem_singleton.mp he2 with rfl
          trivial
      · intro _
        rw [allSoft_append, hsoft (fun hh => CondOut.noConfusion hh)]
        rfl

/-- `__parse_security` satisfies the block contract. -/
theorem parseSecurity_spec (offset : Int) (st : PSt) :
    ParseCondOut st (parseSecurity offset st) := by
  unfold parseSecurity
  dsimp only
  by_cases hc : pySlice st.input offset (offset + 1) = ['^']
  · rw [if_pos hc]
    cases hx : pyIntHex ((getAssoc (storeField (storeField (storeField st
        Target.top BlockKind.security ("security_data_begin") offset (offset + 1)
        (some 1)) Target.top BlockKind.security ("security_data_type")
        (offset + 1) (offset + 2) (some 1)) Target.top BlockKind.security
        ("security_data_length") (offset + 2) (offset + 4) (some 2)).raw
        ("security_data_length")).getD []) with
    | none =>
      exact parseCondOut_store (fun n hn => by cases hn; omega)
        (parseCondOut_store (fun n hn => by cases hn; omega)
          (parseCondOut_store (fun n hn => by cases hn; omega)
            (parseCondOut_fail_invalid _ _)))
    | some len0 =>
      exact parseCondOut_store (fun n hn => by cases hn; omega)
        (parseCondOut_store (fun n hn => by cases hn; omega)
          (parseCondOut_store (fun n hn => by cases hn; omega)
            (parseCondOut_last_store _ _ _ _ _ _ _ (fun n hn => by cases hn) _)))
  · rw [if_neg hc]
    exact parseCondOut_last_store _ _ _ _ _ _ _ (fun n hn => by cases hn) _

/-! ## Lemmas: `StepOut` and the stages of `__parse` -/

theorem stepOut_refl (st : PSt) : StepOut st st :=
  ⟨rfl, [], by simp, by simp, fun _ => rfl, fun _ => rfl⟩

/-- A step that touches neither the input nor the trace. -/
theorem stepOut_silent {st st' : PSt} (hi : st'.input = st.input)
    (he : st'.events = st.events) : StepOut st st' :=
  ⟨hi, [], by simp [he], by simp, fun _ => rfl, fun _ => rfl⟩

/-- A step appending only soft in-bounds events. -/
theorem stepOut_of_soft {st st' : PSt} (hi : st'.input = st.input)
    (d : List Ev) (he : st'.events = st.events ++ d)
    (ho : ∀ e ∈ d, storeOK st.input e) (hs : allSoft d = true) :
    StepOut st st' :=
  ⟨hi, d, he, ho, fun _ => lastOnly_of_allSoft d hs, fun _ => hs⟩

/-- A step that stops parsing, with every hard invalidation last. -/
theorem stepOut_of_last {st st' : PSt} (hi : st'.input = st.input)
    (d : List Ev) (he : st'.events = st.events ++ d)
    (ho : ∀ e ∈ d, storeOK st.input e) (hl : lastOnly d = true)
    (hstop : st'.stopped = true) : StepOut st st' :=
  ⟨hi, d, he, ho, fun _ => hl,
   fun hf => absurd (hstop.symm.trans hf) (by decide)⟩

/-- Composing two steps, provided a stopped intermediate state is final. -/
theorem stepOut_trans {st st1 st2 : PSt} (h1 : StepOut st st1)
    (h2 : StepOut st1 st2) (hstop : st1.stopped = true → st2 = st1) :
    StepOut st st2 := by
  obtain ⟨hi1, d1, he1, ho1, hl1, hs1⟩ := h1
  obtain ⟨hi2, d2, he2, ho2, hl2, hs2⟩ := h2
  cases hstop1 : st1.stopped with
  | true =>
    rw [hstop hstop1]
    exact ⟨hi1, d1, he1, ho1, hl1, hs1⟩
  | false =>
    refine ⟨hi2.trans hi1, d1 ++ d2, ?_, ?_, ?_, ?_⟩
    · rw [he2, he1, List.append_assoc]
    · intro e he
      rcases List.mem_append.mp he with h | h
      · exact ho1 e h
      · have := ho2 e h
        rwa [hi1] at this
    · intro h2s
      rw [lastOnly_append d1 d2 (hs1 hstop1)]
      exact hl2 h2s
    · intro h2s
      rw [allSoft_append, hs1 hstop1, hs2 h2s]
      rfl

/-- A stopped state passes through a leg iteration unchanged. -/
theorem legIter_stopped (i : Nat) (st : PSt) (h : st.stopped = true) :
    legIter i st = st := by
  unfold legIter
  rw [if_pos h]

/-- A stopped state passes through the whole leg loop unchanged. -/
theorem legsLoop_stopped (k : Nat) (i : Nat) (st : PSt)
    (h : st.stopped = true) : legsLoop k i st = st := by
  induction k generalizing i with
  | zero => rfl
  | succ k ih =>
    show legsLoop k (i + 1) (legIter i st) = st
    rw [legIter_stopped i st h]
    exact ih (i + 1)

/-- A stopped state passes through `finish` unchanged. -/
theorem finish_stopped (st : PSt) (h : st.stopped = true) : finish st = st := by
  unfold finish
  rw [if_pos h]

/-- The conditional-repeated/airline tail of a leg iteration. -/
theorem condRPart_spec (legEnd : Int) (st : PSt) :
    StepOut st (condRPart legEnd st) := by
  unfold condRPart
  have h := parseCond_spec Target.leg BlockKind.condR condRFields
    ("following_repeated_length") st.cursor st
  cases hr : parseCond Target.leg BlockKind.condR condRFields
      ("following_repeated_length") st.cursor st with
  | mk st1 out =>
    rw [hr] at h
    obtain ⟨hctl, hf, hnf, d, hev, hok, hlast, hsoft⟩ := h
    cases out with
    | none =>
      exact stepOut_of_last hctl.1 d hev hok (hlast rfl) rfl
    | some crlen =>
      dsimp only
      have hsoftd : allSoft d = true := hsoft (fun hh => Option.noConfusion hh)
      by_cases hgt : st1.cursor + crlen > legEnd
      · rw [if_pos hgt]
        exact stepOut_of_last hctl.1 d hev hok (lastOnly_of_allSoft d hsoftd) rfl
      · rw [if_neg hgt]
        by_cases hlt : st1.cursor + crlen < legEnd
        · rw [if_pos hlt]
          refine stepOut_of_soft ?_ (d ++ [Ev.store BlockKind.airline
            ("individual_airline_use") (st1.cursor + crlen) legEnd none
            (pySlice st1.input (st1.cursor + crlen) legEnd)]) ?_ ?_ ?_
          · exact hctl.1
          · rw [show (storeField { st1 with cursor := st1.cursor + crlen }
                Target.leg BlockKind.airline ("individual_airline_use")
                (st1.cursor + crlen) legEnd none).events =
                st1.events ++ [Ev.store BlockKind.airline
                  ("individual_airline_use") (st1.cursor + crlen) legEnd none
                  (pySlice st1.input (st1.cursor + crlen) legEnd)] from by
              rw [storeField_events]]
            rw [hev, List.append_assoc]
          · intro e he
            rcases List.mem_append.mp he with h1 | h2
            · exact hok e h1
            · rcases List.mem_singleton.mp h2 with rfl
              exact ⟨by rw [hctl.1], fun n hn => by cases hn⟩
          · rw [allSoft_append, hsoftd]
            rfl
        · rw [if_neg hlt]
          exact stepOut_of_soft hctl.1 d hev hok hsoftd

/-- One leg iteration satisfies the step contract. -/
theorem legIter_spec (i : Nat) (st : PSt) : StepOut st (legIter i st) := by
  cases hstop : st.stopped with
  | true =>
    rw [legIter_stopped i st hstop]
    exact stepOut_refl st
  | false =>
    unfold legIter
    rw [if_neg (by rw [hstop]; exact Bool.false_ne_true)]
    dsimp only
    obtain ⟨hctl2, hval2, dF, hevF, hokF, hsoftF⟩ :=
      fixedGo_spec Target.leg BlockKind.mandR mandRFields st.cursor
        { st with legs := st.legs ++ [[]] }
    cases hx : pyIntHex (((fixedGo Target.leg BlockKind.mandR mandRFields
        st.cursor { st with legs := st.legs ++ [[]] }).legs.getLast?.bind
        (fun d => getAssoc d ("conditional_airline_length"))).getD []) with
    | none =>
      refine stepOut_of_last hctl2.1
        (dF ++ [Ev.invalid InvReason.condAirLen]) ?_ ?_ ?_ rfl
      · rw [show ({ invalidate (fixedGo Target.leg BlockKind.mandR mandRFields
            st.cursor { st with legs := st.legs ++ [[]] })
            InvReason.condAirLen with stopped := true } : PSt).events =
            (fixedGo Target.leg BlockKind.mandR mandRFields st.cursor
              { st with legs := st.legs ++ [[]] }).events ++
              [Ev.invalid InvReason.condAirLen] from rfl,
          hevF, List.append_assoc]
      · intro e he
        rcases List.mem_append.mp he with h1 | h2
        · exact hokF e h1
        · rcases List.mem_singleton.mp h2 with rfl
          trivial
      · exact lastOnly_append_single dF _ hsoftF
    | some ca =>
      dsimp only
      have h03 : StepOut st { (fixedGo Target.leg BlockKind.mandR mandRFields
          st.cursor { st with legs := st.legs ++ [[]] }) with
            cursor := (fixedGo Target.leg BlockKind.mandR mandRFields
              st.cursor { st with legs := st.legs ++ [[]] }).cursor +
              (mandRLen : Int) } :=
        stepOut_of_soft hctl2.1 dF hevF hokF hsoftF
      have hstop3 : ({ (fixedGo Target.leg BlockKind.mandR mandRFields
          st.cursor { st with legs := st.legs ++ [[]] }) with
            cursor := (fixedGo Target.leg BlockKind.mandR mandRFields
              st.cursor { st with legs := st.legs ++ [[]] }).cursor +
              (mandRLen : Int) } : PSt).stopped = false := by
        show (fixedGo Target.leg BlockKind.mandR mandRFields
          st.cursor { st with legs := st.legs ++ [[]] }).stopped = false
        rw [hctl2.2.1]
        exact hstop
      by_cases hca : ca = 0
      · rw [if_pos hca]
        exact h03
      · rw [if_neg hca]
        by_cases hi0 : i = 0
        · rw [if_pos hi0]
          obtain ⟨hctl4, hf4, hnf4, dC, hevC, hokC, hlastC, hsoftC⟩ :=
            parseCond_spec Target.top BlockKind.condU condUFields
              ("following_unique_length")
              ({ (fixedGo Target.leg BlockKind.mandR mandRFields
                st.cursor { st with legs := st.legs ++ [[]] }) with
                  cursor := (fixedGo Target.leg BlockKind.mandR mandRFields
                    st.cursor { st with legs := st.legs ++ [[]] }).cursor +
                    (mandRLen : Int) } : PSt).cursor
              { (fixedGo Target.leg BlockKind.mandR mandRFields
                st.cursor { st with legs := st.legs ++ [[]] }) with
                  cursor := (fixedGo Target.leg BlockKind.mandR mandRFields
                    st.cursor { st with legs := st.legs ++ [[]] }).cursor +
                    (mandRLen : Int) }
          revert hctl4 hf4 hnf4 hevC hokC hlastC hsoftC
          cases hc : parseCond Target.top BlockKind.condU condUFields
              ("following_unique_length")
              ({ (fixedGo Target.leg BlockKind.mandR mandRFields
                st.cursor { st with legs := st.legs ++ [[]] }) with
                  cursor := (fixedGo Target.leg BlockKind.mandR mandRFields
                    st.cursor { st with legs := st.legs ++ [[]] }).cursor +
                    (mandRLen : Int) } : PSt).cursor
              { (fixedGo Target.leg BlockKind.mandR mandRFields
                st.cursor { st with legs := st.legs ++ [[]] }) with
                  cursor := (fixedGo Target.leg BlockKind.mandR mandRFields
                    st.cursor { st with legs := st.legs ++ [[]] }).cursor +
                    (mandRLen : Int) } with
          | mk st4 out =>
            intro hctl4 hf4 hnf4 hevC hokC hlastC hsoftC
            cases out with
            | none =>
              dsimp only
              refine stepOut_of_last (hctl4.1.trans hctl2.1) (dF ++ dC) ?_ ?_ ?_ rfl
              · rw [show ({ st4 with stopped := true } : PSt).events = st4.events
                  from rfl, hevC, hevF, List.append_assoc]
              · intro e he
                rcases List.mem_append.mp he with h1 | h2
                · exact hokF e h1
                · have h5 := hokC e h2
                  have h6 : storeOK st.input e := by
                    have h7 : ({ (fixedGo Target.leg BlockKind.mandR mandRFields
                      st.cursor { st with legs := st.legs ++ [[]] }) with
                        cursor := (fixedGo Target.leg BlockKind.mandR mandRFields
                          st.cursor { st with legs := st.legs ++ [[]] }).cursor +
                          (mandRLen : Int) } : PSt).input = st.input := hctl2.1
                    rwa [h7] at h5
                  exact h6
              · rw [lastOnly_append dF dC hsoftF]
                exact hlastC rfl
            | some culen =>
              dsimp only
              have hsoftC2 : allSoft dC = true :=
                hsoftC (fun hh => Option.noConfusion hh)
              have h34 : StepOut st st4 := by
                refine stepOut_trans h03 (stepOut_of_soft hctl4.1 dC hevC ?_ hsoftC2)
                  (fun hh => absurd (hstop3 ▸ hh) (by decide))
                intro e he
                exact hokC e he
              have hstop4 : st4.stopped = false := by
                rw [hctl4.2.1]
                exact hstop3
              cases hv : pyIntDec ((getAssoc st4.raw ("version_number")).getD []) with
              | some v =>
                dsimp only
                have h46 : StepOut st
                    { st4 with vnum := some v, cursor := st4.cursor + culen } :=
                  stepOut_trans h34 (stepOut_silent rfl rfl)
                    (fun hh => absurd (hstop4 ▸ hh) (by decide))
                by_cases hcc : ca = culen
                · rw [if_pos hcc]
                  exact h46
                · rw [if_neg hcc]
                  exact stepOut_trans h46 (condRPart_spec _ _)
                    (fun hh => absurd (hstop4 ▸ hh) (by decide))
              | none =>
                dsimp only
                have h46 : StepOut st
                    { invalidate st4 InvReason.versionNumber with
                      cursor := (invalidate st4 InvReason.versionNumber).cursor + culen } := by
                  refine stepOut_trans h34 (stepOut_of_soft rfl
                    [Ev.invalid InvReason.versionNumber] ?_ ?_ ?_)
                    (fun hh => absurd (hstop4 ▸ hh) (by decide))
                  · exact invalidate_events st4 InvReason.versionNumber
                  · intro e he
                    rcases List.mem_singleton.mp he with rfl
                    trivial
                  · rfl
                by_cases hcc : ca = culen
                · rw [if_pos hcc]
                  exact h46
                · rw [if_neg hcc]
                  exact stepOut_trans h46 (condRPart_spec _ _)
                    (fun hh => absurd (hstop4 ▸ hh) (by decide))
        · rw [if_neg hi0]
          exact stepOut_trans h03 (condRPart_spec _ _)
            (fun hh => absurd (hstop3 ▸ hh) (by decide))

/-- The whole leg loop satisfies the step contract. -/
theorem legsLoop_spec : ∀ (k i : Nat) (st : PSt), StepOut st (legsLoop k i st) := by
  intro k
  induction k with
  | zero => intro i st; exact stepOut_refl st
  | succ k ih =>
    intro i st
    show StepOut st (legsLoop k (i + 1) (legIter i st))
    exact stepOut_trans (legIter_spec i st) (ih (i + 1) (legIter i st))
      (fun hh => legsLoop_stopped k (i + 1) _ hh)

/-- The SECURITY step satisfies the step contract. -/
theorem secPhase_spec (st : PSt) : StepOut st (secPhase st) := by
  unfold secPhase
  dsimp only
  cases hv : st.vnum with
  | none => exact stepOut_refl st
  | some v =>
    dsimp only
    by_cases hcond : 3 ≤ v ∧ st.cursor < (st.input.length : Int)
    · rw [if_pos hcond]
      cases hs : parseSecurity st.cursor st with
      | mk st1 out =>
        have h := parseSecurity_spec st.cursor st
        rw [hs] at h
        obtain ⟨hctl, hf, hnf, d, hev, hok, hlast, hsoft⟩ := h
        cases out with
        | none => exact stepOut_of_last hctl.1 d hev hok (hlast rfl) rfl
        | some slen =>
          exact stepOut_of_soft hctl.1 d hev hok
            (hsoft (fun hh => Option.noConfusion hh))
    · rw [if_neg hcond]
      exact stepOut_refl st

/-- The tail of `__parse` satisfies the step contract. -/
theorem finish_spec (st : PSt) : StepOut st (finish st) := by
  cases hstop : st.stopped with
  | true =>
    rw [finish_stopped st hstop]
    exact stepOut_refl st
  | false =>
    unfold finish
    rw [if_neg (by rw [hstop]; exact Bool.false_ne_true)]
    dsimp only
    by_cases hgt : st.cursor > (st.input.length : Int)
    · rw [if_pos hgt]
      refine stepOut_of_last rfl [Ev.invalid InvReason.cursorPastEnd]
        (invalidate_events st _) ?_ (by decide) rfl
      intro e he
      rcases List.mem_singleton.mp he with rfl
      trivial
    · rw [if_neg hgt]
      have hsec := secPhase_spec st
      by_cases hstop1 : (secPhase st).stopped = true
      · rw [if_pos hstop1]
        exact hsec
      · rw [if_neg hstop1]
        by_cases hlt : (secPhase st).cursor < (st.input.length : Int)
        · rw [if_pos hlt]
          refine stepOut_trans hsec (stepOut_of_soft rfl
            [Ev.store BlockKind.trailing ("unknown") (secPhase st).cursor
              (st.input.length : Int) none
              (pySlice (secPhase st).input (secPhase st).cursor
                (st.input.length : Int))] rfl ?_ rfl)
            (fun hh => absurd hh hstop1)
          intro e he
          rcases List.mem_singleton.mp he with rfl
          exact ⟨rfl, fun n hn => by cases hn⟩
        · rw [if_neg hlt]
          exact hsec

/-- `__parse` as a whole satisfies the step contract from the pristine
state. -/
theorem parse_spec (s : List Char) : StepOut (initSt s) (parse s) := by
  unfold parse
  dsimp only
  obtain ⟨hctl, hval, dM, hevM, hokM, hsoftM⟩ :=
    fixedGo_spec Target.top BlockKind.mandU mandUFields 0 (initSt s)
  cases hl : pyIntDec ((getAssoc (fixedGo Target.top BlockKind.mandU
      mandUFields 0 (initSt s)).raw ("leg_count")).getD []) with
  | none =>
    refine stepOut_of_last hctl.1 (dM ++ [Ev.invalid InvReason.legCount]) ?_ ?_
      (lastOnly_append_single dM _ hsoftM) rfl
    · rw [show ({ invalidate (fixedGo Target.top BlockKind.mandU mandUFields 0
          (initSt s)) InvReason.legCount with stopped := true } : PSt).events =
          (fixedGo Target.top BlockKind.mandU mandUFields 0 (initSt s)).events ++
          [Ev.invalid InvReason.legCount] from rfl, hevM, List.append_assoc]
    · intro e he
      rcases List.mem_append.mp he with h1 | h2
      · exact hokM e h1
      · rcases List.mem_singleton.mp h2 with rfl
        trivial
  | some n =>
    have h1 : StepOut (initSt s)
        ({ fixedGo Target.top BlockKind.mandU mandUFields 0 (initSt s) with
            legCount := some n, cursor := (mandULen : Int) }) :=
      stepOut_of_soft hctl.1 dM hevM hokM hsoftM
    have hst : ({ fixedGo Target.top BlockKind.mandU mandUFields 0 (initSt s) with
        legCount := some n, cursor := (mandULen : Int) } : PSt).stopped = false := by
      show (fixedGo Target.top BlockKind.mandU mandUFields 0 (initSt s)).stopped = false
      rw [hctl.2.1]
      rfl
    exact stepOut_trans
      (stepOut_trans h1 (legsLoop_spec _ _ _)
        (fun hh => legsLoop_stopped _ _ _ hh))
      (finish_spec _) (fun hh => finish_stopped _ hh)

/-- The parser echoes its input string. -/
theorem parse_input (s : List Char) : (parse s).input = s := (parse_spec s).1

/-- Every event of a parse trace is an in-bounds store (or a block-span or
invalidation marker). -/
theorem parse_storeOK (s : List Char) :
    ∀ e ∈ (parse s).events, storeOK s e := by
  obtain ⟨hi, d, hev, hok, _, _⟩ := parse_spec s
  intro e he
  rw [hev] at he
  rcases List.mem_append.mp he with h0 | h1
  · simp [initSt] at h0
  · exact hok e h1

/-- Every parsing-stopping invalidation ends the parse trace. -/
theorem parse_lastOnly (s : List Char) : lastOnly (parse s).events = true := by
  obtain ⟨hi, d, hev, hok, hl, hs⟩ := parse_spec s
  have hev2 : (parse s).events = d := hev
  rw [hev2]
  cases hps : (parse s).stopped with
  | true => exact hl hps
  | false => exact lastOnly_of_allSoft d (hs hps)

/-! ## Lemmas: block dictionaries and branch-level behavior -/

/-- A leg-targeted fixed block parse rewrites exactly the dictionary of the
current (last) leg. -/
theorem fixedGo_legs_dict (blk : BlockKind) :
    ∀ (fs : List (String × Nat)) (start : Int) (st : PSt)
      (l : List FieldMap) (d : FieldMap), st.legs = l ++ [d] →
      (fixedGo Target.leg blk fs start st).legs =
        l ++ [dictGo st.input start d fs] := by
  intro fs
  induction fs with
  | nil => intro start st l d h; exact h
  | cons f rest ih =>
    intro start st l d h
    obtain ⟨k, w⟩ := f
    show (fixedGo Target.leg blk rest (start + (w : Int))
      (storeField st Target.leg blk k start (start + (w : Int)) (some w))).legs = _
    have hlegs : (storeField st Target.leg blk k start (start + (w : Int))
        (some w)).legs =
        l ++ [setAssoc d k (pySlice st.input start (start + (w : Int)))] := by
      show updateLast st.legs k (pySlice st.input start (start + (w : Int))) = _
      rw [h, updateLast_append]
    rw [ih (start + (w : Int)) _ l _ hlegs]
    rfl

/-- A top-targeted fixed block parse rewrites `self.raw` as a dictionary
fold and leaves `legs` alone. -/
theorem fixedGo_top_raw (blk : BlockKind) :
    ∀ (fs : List (String × Nat)) (start : Int) (st : PSt),
      (fixedGo Target.top blk fs start st).raw = dictGo st.input start st.raw fs ∧
      (fixedGo Target.top blk fs start st).legs = st.legs := by
  intro fs
  induction fs with
  | nil => intro start st; exact ⟨rfl, rfl⟩
  | cons f rest ih =>
    intro start st
    obtain ⟨k, w⟩ := f
    obtain ⟨h1, h2⟩ := ih (start + (w : Int))
      (storeField st Target.top blk k start (start + (w : Int)) (some w))
    exact ⟨h1, h2⟩

/-- A leg-targeted fixed block parse never touches `self.raw`. -/
theorem fixedGo_leg_raw (blk : BlockKind) :
    ∀ (fs : List (String × Nat)) (start : Int) (st : PSt),
      (fixedGo Target.leg blk fs start st).raw = st.raw := by
  intro fs
  induction fs with
  | nil => intro start st; rfl
  | cons f rest ih =>
    intro start st
    obtain ⟨k, w⟩ := f
    exact ih (start + (w : Int))
      (storeField st Target.leg blk k start (start + (w : Int)) (some w))

/-- Slicing the right part of an append, with the shifted offsets given
up front. -/
theorem pySlice_append_shift (u r : List Char) (a b a' b' : Int)
    (ha : (u.length : Int) ≤ a) (hb : (u.length : Int) ≤ b)
    (ha' : a' = a - u.length) (hb' : b' = b - u.length) :
    pySlice (u ++ r) a b = pySlice r a' b' := by
  rw [pySlice_append_right u r a b ha hb, ha', hb']

/-- The `leg_count` lookup of `__parse` reads `raw[1:2]`. -/
theorem mandU_leg_count (s : List Char) :
    ((getAssoc (fixedGo Target.top BlockKind.mandU mandUFields 0
      (initSt s)).raw ("leg_count")).getD []) = pySlice s 1 2 := by
  rw [(fixedGo_top_raw BlockKind.mandU mandUFields 0 (initSt s)).1]
  show ((getAssoc (dictGo s 0 [] mandUFields) ("leg_count")).getD []) = _
  simp [mandUFields, dictGo, setAssoc, getAssoc]

/-- Once the length field of a self-describing block has parsed, the rest of
the field loop cannot fail and returns the parsed span. -/
theorem condGo_fol_done (tgt : Target) (blk : BlockKind) (folKey : String) :
    ∀ (fs : List (String × Nat)) (start fo fl : Int) (st : PSt),
      (∀ p ∈ fs, p.1 ≠ folKey) →
      ∃ st2, condGo tgt blk folKey fs start (some (fo, fl)) st =
          (st2, CondOut.done fo fl) ∧ CtlEq st2 st ∧ st2.valid = st.valid := by
  intro fs
  induction fs with
  | nil =>
    intro start fo fl st _
    exact ⟨st, rfl, ctlEq_refl st, rfl⟩
  | cons f rest ih =>
    intro start fo fl st hk
    obtain ⟨k, w⟩ := f
    show ∃ st2, condGo tgt blk folKey ((k, w) :: rest) start (some (fo, fl)) st = _ ∧ _
    unfold condGo
    dsimp only
    by_cases h0 : fo + fl - start ≤ 0
    · rw [if_pos h0]
      exact ⟨st, rfl, ctlEq_refl st, rfl⟩
    · rw [if_neg h0]
      have hkne : ¬ k = folKey := hk (k, w) (List.mem_cons_self _ _)
      rw [if_neg hkne]
      obtain ⟨st2, heq, hctl, hval⟩ := ih (start + (w : Int)) fo fl
        (storeField st tgt blk k start
          (if fo + fl - start < (w : Int) then start + (fo + fl - start)
            else start + (w : Int)) (some w))
        (fun p hp => hk p (List.mem_cons_of_mem _ hp))
      refine ⟨st2, heq, ctlEq_trans hctl (storeField_ctl _ _ _ _ _ _ _), ?_⟩
      rw [hval, storeField_valid]

/-- A `lastOnly` trace has nothing after a non-`versionNumber`
invalidation. -/
theorem lastOnly_decomp : ∀ (l : List Ev), lastOnly l = true →
    ∀ (pre : List Ev) (r : InvReason) (post : List Ev),
      l = pre ++ Ev.invalid r :: post → r ≠ InvReason.versionNumber →
      post = [] := by
  intro l hl pre
  induction pre generalizing l with
  | nil =>
    intro r post hdec hr
    subst hdec
    have hemp : post.isEmpty = true := by
      simpa [lastOnly, softEv, hr] using hl
    cases post with
    | nil => rfl
    | cons x xs => simp at hemp
  | cons e pre ih =>
    intro r post hdec hr
    subst hdec
    simp only [List.cons_append, lastOnly] at hl
    by_cases hse : softEv e = true
    · rw [if_pos hse] at hl
      exact ih _ hl r post rfl hr
    · rw [if_neg hse] at hl
      simp at hl

/-- The `conditional_airline_length` lookup after a mandatory repeated
block parsed at offset `c`. -/
theorem mandR_ca_lookup (s : List Char) (c : Int) :
    ((getAssoc (dictGo s c [] mandRFields)
      ("conditional_airline_length")).getD []) =
    pySlice s (c + 35) (c + 37) := by
  simp [mandRFields, dictGo, setAssoc, getAssoc]
  congr 1 <;> omega

/-- A leg iteration starting at or past the end of the input invalidates
the document and stops, after appending one partially-filled leg. -/
theorem legIter_past_end (i : Nat) (st : PSt)
    (hstop : st.stopped = false) (hc : (st.input.length : Int) ≤ st.cursor) :
    (legIter i st).valid = false ∧ (legIter i st).stopped = true ∧
    (legIter i st).legs.length = st.legs.length + 1 := by
  unfold legIter
  rw [if_neg (by rw [hstop]; exact Bool.false_ne_true)]
  dsimp only
  have hlegs : (fixedGo Target.leg BlockKind.mandR mandRFields st.cursor
      { st with legs := st.legs ++ [[]] }).legs =
      st.legs ++ [dictGo st.input st.cursor [] mandRFields] :=
    fixedGo_legs_dict BlockKind.mandR mandRFields st.cursor _ st.legs [] rfl
  have hca : pyIntHex (((fixedGo Target.leg BlockKind.mandR mandRFields
      st.cursor { st with legs := st.legs ++ [[]] }).legs.getLast?.bind
      (fun d => getAssoc d ("conditional_airline_length"))).getD []) = none := by
    rw [hlegs, List.getLast?_concat]
    show pyIntHex ((getAssoc (dictGo st.input st.cursor [] mandRFields)
      ("conditional_airline_length")).getD []) = none
    rw [mandR_ca_lookup, pySlice_empty_of_le _ _ _ (by omega)]
    rfl
  rw [hca]
  refine ⟨rfl, rfl, ?_⟩
  show (fixedGo Target.leg BlockKind.mandR mandRFields st.cursor
    { st with legs := st.legs ++ [[]] }).legs.length = st.legs.length + 1
  rw [hlegs]
  simp

/-- Once the cursor is strictly past the end of the input and parsing has
not stopped, the document always ends up invalid. -/
theorem finishLoop_past_end : ∀ (k i : Nat) (st : PSt),
    st.stopped = false → (st.input.length : Int) < st.cursor →
    (finish (legsLoop k i st)).valid = false := by
  intro k
  cases k with
  | zero =>
    intro i st hstop hc
    show (finish st).valid = false
    unfold finish
    rw [if_neg (by rw [hstop]; exact Bool.false_ne_true)]
    dsimp only
    rw [if_pos (by omega : st.cursor > (st.input.length : Int))]
    rfl
  | succ k =>
    intro i st hstop hc
    show (finish (legsLoop k (i + 1) (legIter i st))).valid = false
    obtain ⟨hv, hs, _⟩ := legIter_past_end i st hstop (le_of_lt hc)
    rw [legsLoop_stopped k (i + 1) _ hs, finish_stopped _ hs]
    exact hv

/-- `__parse_security` never touches the legs list. -/
theorem parseSecurity_legs (offset : Int) (st : PSt) :
    (parseSecurity offset st).1.legs = st.legs := by
  unfold parseSecurity
  dsimp only
  by_cases hc : pySlice st.input offset (offset + 1) = ['^']
  · rw [if_pos hc]
    cases hx : pyIntHex ((getAssoc (storeField (storeField (storeField st
        Target.top BlockKind.security ("security_data_begin") offset (offset + 1)
        (some 1)) Target.top BlockKind.security ("security_data_type")
        (offset + 1) (offset + 2) (some 1)) Target.top BlockKind.security
        ("security_data_length") (offset + 2) (offset + 4) (some 2)).raw
        ("security_data_length")).getD []) with
    | none => rfl
    | some len0 => rfl
  · rw [if_neg hc]
    rfl

/-- The SECURITY step never touches the legs list. -/
theorem secPhase_legs (st : PSt) : (secPhase st).legs = st.legs := by
  unfold secPhase
  dsimp only
  cases hv : st.vnum with
  | none => rfl
  | some v =>
    dsimp only
    by_cases hcond : 3 ≤ v ∧ st.cursor < (st.input.length : Int)
    · rw [if_pos hcond]
      have hl := parseSecurity_legs st.cursor st
      cases hs : parseSecurity st.cursor st with
      | mk st1 out =>
        rw [hs] at hl
        cases out with
        | none => exact hl
        | some slen => exact hl
    · rw [if_neg hcond]

/-- The tail of `__parse` never touches the legs list. -/
theorem finish_legs (st : PSt) : (finish st).legs = st.legs := by
  cases hstop : st.stopped with
  | true => rw [finish_stopped st hstop]
  | false =>
    unfold finish
    rw [if_neg (by rw [hstop]; exact Bool.false_ne_true)]
    dsimp only
    by_cases hgt : st.cursor > (st.input.length : Int)
    · rw [if_pos hgt]
      rfl
    · rw [if_neg hgt]
      by_cases hstop1 : (secPhase st).stopped = true
      · rw [if_pos hstop1]
        exact secPhase_legs st
      · rw [if_neg hstop1]
        by_cases hlt : (secPhase st).cursor < (st.input.length : Int)
        · rw [if_pos hlt]
          exact secPhase_legs st
        · rw [if_neg hlt]
          exact secPhase_legs st

/-- A conditional-repeated block started at or past the end of the input
fails its hex length field, invalidating the document and stopping. -/
theorem condRPart_past_end (legEnd : Int) (st : PSt)
    (hc : (st.input.length : Int) ≤ st.cursor) :
    (condRPart legEnd st).valid = false ∧ (condRPart legEnd st).stopped = true := by
  unfold condRPart
  have hgo : condGo Target.leg BlockKind.condR ("following_repeated_length")
      condRFields st.cursor none st =
      (match pyIntHex (pySlice st.input st.cursor (st.cursor + 2)) with
       | some n => condGo Target.leg BlockKind.condR ("following_repeated_length")
           (condRFields.drop 1) (st.cursor + 2) (some (st.cursor + 2, n))
           (storeField st Target.leg BlockKind.condR ("following_repeated_length")
             st.cursor (st.cursor + 2) (some 2))
       | none => (invalidate (storeField st Target.leg BlockKind.condR
           ("following_repeated_length") st.cursor (st.cursor + 2) (some 2))
           (InvReason.condLen BlockKind.condR), CondOut.fail)) := rfl
  have hnone : pyIntHex (pySlice st.input st.cursor (st.cursor + 2)) = none := by
    rw [pySlice_empty_of_le _ _ _ hc]
    rfl
  unfold parseCond
  rw [hgo, hnone]
  exact ⟨rfl, rfl⟩

/-- Parsing the Conditional Unique block at offset `c` when its
`following_unique_length` field parses to `fl`: the block parse succeeds,
returns span `(c + 1 + 1 + 2) + fl - c`, and leaves the control state and
`valid` untouched. -/
theorem parseCond_condU (st : PSt) (c fl : Int)
    (hfl : pyIntHex (pySlice st.input (c + 1 + 1) (c + 1 + 1 + 2)) = some fl) :
    ∃ st4, parseCond Target.top BlockKind.condU condUFields
        ("following_unique_length") c st = (st4, some (c + 1 + 1 + 2 + fl - c)) ∧
      CtlEq st4 st ∧ st4.valid = st.valid := by
  have hgo : condGo Target.top BlockKind.condU ("following_unique_length")
      condUFields c none st =
      (match pyIntHex (pySlice st.input (c + 1 + 1) (c + 1 + 1 + 2)) with
       | some n => condGo Target.top BlockKind.condU ("following_unique_length")
           (condUFields.drop 3) (c + 1 + 1 + 2) (some (c + 1 + 1 + 2, n))
           (storeField (storeField (storeField st Target.top BlockKind.condU
             ("version_number_begin") c (c + 1) (some 1)) Target.top
             BlockKind.condU ("version_number") (c + 1) (c + 1 + 1) (some 1))
             Target.top BlockKind.condU ("following_unique_length") (c + 1 + 1)
             (c + 1 + 1 + 2) (some 2))
       | none => (invalidate (storeField (storeField (storeField st Target.top
           BlockKind.condU ("version_number_begin") c (c + 1) (some 1))
           Target.top BlockKind.condU ("version_number") (c + 1) (c + 1 + 1)
           (some 1)) Target.top BlockKind.condU ("following_unique_length")
           (c + 1 + 1) (c + 1 + 1 + 2) (some 2))
           (InvReason.condLen BlockKind.condU), CondOut.fail)) := rfl
  obtain ⟨st2, htail, hctl2, hval2⟩ := condGo_fol_done Target.top
    BlockKind.condU ("following_unique_length") (condUFields.drop 3)
    (c + 1 + 1 + 2) (c + 1 + 1 + 2) fl
    (storeField (storeField (storeField st Target.top BlockKind.condU
      ("version_number_begin") c (c + 1) (some 1)) Target.top
      BlockKind.condU ("version_number") (c + 1) (c + 1 + 1) (some 1))
      Target.top BlockKind.condU ("following_unique_length") (c + 1 + 1)
      (c + 1 + 1 + 2) (some 2))
    (by decide)
  refine ⟨{ st2 with events := st2.events ++
      [Ev.block BlockKind.condU c (c + 1 + 1 + 2 + fl)] }, ?_, ?_, ?_⟩
  · unfold parseCond
    rw [hgo, hfl]
    dsimp only
    rw [htail]
  · refine ctlEq_trans ⟨rfl, rfl, rfl, rfl, rfl, rfl⟩ (ctlEq_trans hctl2 ?_)
    exact ctlEq_trans (storeField_ctl _ _ _ _ _ _ _)
      (ctlEq_trans (storeField_ctl _ _ _ _ _ _ _) (storeField_ctl _ _ _ _ _ _ _))
  · show st2.valid = st.valid
    rw [hval2, storeField_valid, storeField_valid, storeField_valid]

/-- A first leg whose `conditional_airline_length` is non-zero and whose
Conditional Unique block declares a span running past the end of the input
always leaves the document invalid: either the cursor lands past the end
(caught by the `cursor > data_len` check) or the conditional-repeated
parse fails at once. -/
theorem condU_overrun_invalid (k : Nat) (st : PSt)
    (hstp : st.stopped = false) (ca fl : Int)
    (hca : pyIntHex (pySlice st.input (st.cursor + 35) (st.cursor + 37)) = some ca)
    (hca0 : ca ≠ 0)
    (hfl : pyIntHex (pySlice st.input (st.cursor + 37 + 1 + 1)
      (st.cursor + 37 + 1 + 1 + 2)) = some fl)
    (hlen : (st.input.length : Int) < st.cursor + 37 + 4 + fl) :
    (finish (legsLoop (k + 1) 0 st)).valid = false := by
  have hmr : ((mandRLen : Nat) : Int) = 37 := by decide
  show (finish (legsLoop k 1 (legIter 0 st))).valid = false
  unfold legIter
  rw [if_neg (by rw [hstp]; exact Bool.false_ne_true)]
  dsimp only
  have hspec2 := (fixedGo_spec Target.leg BlockKind.mandR mandRFields st.cursor
    { st with legs := st.legs ++ [[]] }).1
  have hlegs2 := fixedGo_legs_dict BlockKind.mandR mandRFields st.cursor
    { st with legs := st.legs ++ [[]] } st.legs [] rfl
  set st2 := fixedGo Target.leg BlockKind.mandR mandRFields st.cursor
    { st with legs := st.legs ++ [[]] } with hst2
  have h2in : st2.input = st.input := hspec2.1
  have h2st : st2.stopped = false := by rw [hspec2.2.1]; exact hstp
  have h2cur : st2.cursor = st.cursor := hspec2.2.2.1
  have hlegs2' : st2.legs = st.legs ++ [dictGo st.input st.cursor [] mandRFields] :=
    hlegs2
  have hcaM : pyIntHex ((st2.legs.getLast?.bind
      (fun d => getAssoc d ("conditional_airline_length"))).getD []) = some ca := by
    rw [hlegs2', List.getLast?_concat]
    show pyIntHex ((getAssoc (dictGo st.input st.cursor [] mandRFields)
      ("conditional_airline_length")).getD []) = some ca
    rw [mandR_ca_lookup]
    exact hca
  rw [hcaM]
  dsimp only
  rw [if_neg hca0, if_pos (show (0 : Nat) = 0 from rfl)]
  obtain ⟨st4, hpc, hctl4, hval4⟩ := parseCond_condU
    { st2 with cursor := st2.cursor + (mandRLen : Int) }
    (st2.cursor + (mandRLen : Int)) fl
    (by show pyIntHex (pySlice st2.input (st2.cursor + (mandRLen : Int) + 1 + 1)
          (st2.cursor + (mandRLen : Int) + 1 + 1 + 2)) = some fl
        rw [h2in, h2cur, hmr]
        exact hfl)
  rw [hpc]
  dsimp only
  have h4in : st4.input = st.input := hctl4.1.trans h2in
  have h4st : st4.stopped = false := hctl4.2.1.trans h2st
  have h4cur : st4.cursor = st.cursor + 37 := by
    have hc := hctl4.2.2.1
    rw [show ({ st2 with cursor := st2.cursor + (mandRLen : Int) } : PSt).cursor =
      st2.cursor + (mandRLen : Int) from rfl] at hc
    rw [hc, h2cur, hmr]
  have key : ∀ t : PSt, t.input = st.input → t.stopped = false →
      t.cursor = st.cursor + 37 + 4 + fl →
      (finish (legsLoop k 1 (if ca = st2.cursor + (mandRLen : Int) + 1 + 1 + 2
          + fl - (st2.cursor + (mandRLen : Int)) then t
        else condRPart (st2.cursor + (mandRLen : Int) + ca) t))).valid = false := by
    intro t htin htst htcur
    by_cases hq : ca = st2.cursor + (mandRLen : Int) + 1 + 1 + 2 + fl
        - (st2.cursor + (mandRLen : Int))
    · rw [if_pos hq]
      exact finishLoop_past_end k 1 t htst (by rw [htin, htcur]; exact hlen)
    · rw [if_neg hq]
      obtain ⟨hv6, hs6⟩ := condRPart_past_end (st2.cursor + (mandRLen : Int) + ca) t
        (by rw [htin, htcur]; omega)
      rw [legsLoop_stopped k 1 _ hs6, finish_stopped _ hs6]
      exact hv6
  cases hvn : pyIntDec ((getAssoc st4.raw ("version_number")).getD []) with
  | some v =>
    dsimp only
    refine key _ ?_ ?_ ?_
    · show st4.input = st.input
      exact h4in
    · show st4.stopped = false
      exact h4st
    · show st4.cursor + (st2.cursor + (mandRLen : Int) + 1 + 1 + 2 + fl
        - (st2.cursor + (mandRLen : Int))) = st.cursor + 37 + 4 + fl
      rw [h4cur, hmr]
      omega
  | none =>
    dsimp only
    refine key _ ?_ ?_ ?_
    · show st4.input = st.input
      exact h4in
    · show st4.stopped = false
      exact h4st
    · show st4.cursor + (st2.cursor + (mandRLen : Int) + 1 + 1 + 2 + fl
        - (st2.cursor + (mandRLen : Int))) = st.cursor + 37 + 4 + fl
      rw [h4cur, hmr]
      omega

/-! ## The claims -/

/-- C2 (counterexample): the input `c2str` has leg-count character `'0'`
(which does not denote an integer in 1–4), yet `decode` returns a document
with `valid = true` — there is no leg-count range check in the code. -/
theorem claim2_counterexample :
    pySlice c2str 1 2 = ['0'] ∧ c2str.length = 23 ∧
    (parse c2str).valid = true ∧ (parse c2str).legs = [] := by
  refine ⟨by decide, by decide, by decide, by decide⟩

/-- C2 (amended): the document is invalid whenever the leg-count character
fails to parse as an integer (`int` raises); a numeric leg count outside
1–4 does not by itself make the document invalid. -/
theorem claim2_amended_nondigit (s : List Char)
    (h : pyIntDec (pySlice s 1 2) = none) : (parse s).valid = false := by
  unfold parse
  dsimp only
  rw [mandU_leg_count s, h]
  rfl

/-- Witness for C2 (amended) at the empty input. -/
theorem claim2_witness :
    pyIntDec (pySlice ([] : List Char) 1 2) = none ∧
    (parse ([] : List Char)).valid = false :=
  ⟨by decide, claim2_amended_nondigit [] (by decide)⟩

/-- C7: `decode` is a total function — for every input string it returns a
`BcbpDocument` carrying that string, and the only failure channel is the
boolean `valid` flag.  (Totality and absence of exceptions hold by
construction of the shallow embedding: `parse` is a structurally recursive
function, and every fallible `int(...)` conversion in the source is wrapped
in `try/except`, modelled as a total `Option`-valued match.) -/
theorem claim7_total (s : List Char) :
    (parse s).input = s ∧
    ((parse s).valid = true ∨ (parse s).valid = false) := by
  refine ⟨parse_input s, ?_⟩
  cases (parse s).valid with
  | true => exact Or.inl rfl
  | false => exact Or.inr rfl

/-- C10: every fixed-width field value stored during parsing is exactly the
contiguous slice of the input at the recorded offsets; the offsets span at
most the declared width, so the stored value's length never exceeds the
width, and the value is a contiguous infix of the input (no out-of-bounds
access, no padding). -/
theorem claim10_store_bounds (s : List Char) (blk : BlockKind) (k : String)
    (a b : Int) (w : Nat) (v : List Char)
    (h : Ev.store blk k a b (some w) v ∈ (parse s).events) :
    v = pySlice s a b ∧ a ≤ b ∧ b ≤ a + (w : Int) ∧ v.length ≤ w ∧
    v <:+: s := by
  obtain ⟨hv, hw⟩ := parse_storeOK s _ h
  obtain ⟨hab, hbw⟩ := hw w rfl
  refine ⟨hv, hab, hbw, ?_, ?_⟩
  · rw [hv]
    exact pySlice_length_le s a b w hab hbw
  · rw [hv]
    exact pySlice_isInfix s a b

/-- Witness for C10 at a concrete store event of a concrete parse. -/
theorem claim10_witness :
    Ev.store BlockKind.mandU ("leg_count") 1 2 (some 1) ['0'] ∈
      (parse c2str).events ∧
    (['0'] = pySlice c2str 1 2 ∧ (1 : Int) ≤ 2 ∧
      (2 : Int) ≤ 1 + ((1 : Nat) : Int) ∧ (['0'] : List Char).length ≤ 1 ∧
      ['0'] <:+: c2str) :=
  ⟨by decide,
   claim10_store_bounds c2str BlockKind.mandU ("leg_count") 1 2 1 ['0']
     (by decide)⟩

/-- C4 (counterexample): on `c4str` the parser sets `valid = false` (the
`version_number` field `'X'` fails to parse) and then keeps deriving fields
— the trace contains store events after the invalidation event. -/
theorem claim4_counterexample :
    storeAfterInvalid (parse c4str).events = true ∧
    (parse c4str).valid = false := by
  refine ⟨by decide, by decide⟩

/-- C4 (amended): every invalidation except the `version_number` one is
final — no event (in particular no field store) follows it in the parse
trace; after a non-numeric `version_number` sets `valid = false`, parsing
continues and further fields may still be derived. -/
theorem claim4_amended_sticky (s : List Char) (pre : List Ev) (r : InvReason)
    (post : List Ev) (hdec : (parse s).events = pre ++ Ev.invalid r :: post)
    (hr : r ≠ InvReason.versionNumber) : post = [] :=
  lastOnly_decomp _ (parse_lastOnly s) pre r post hdec hr

/-- Witness for C4 (amended): the concrete decomposition of the trace of
parsing the empty string. -/
theorem claim4_witness :
    (parse ([] : List Char)).events =
      [Ev.store BlockKind.mandU ("format_code") 0 1 (some 1) [],
       Ev.store BlockKind.mandU ("leg_count") 1 2 (some 1) [],
       Ev.store BlockKind.mandU ("passenger_name") 2 22 (some 20) [],
       Ev.store BlockKind.mandU ("electronic_ticket") 22 23 (some 1) []] ++
      Ev.invalid InvReason.legCount :: ([] : List Ev) ∧
    ([] : List Ev) = [] :=
  ⟨by decide,
   claim4_amended_sticky []
     [Ev.store BlockKind.mandU ("format_code") 0 1 (some 1) [],
      Ev.store BlockKind.mandU ("leg_count") 1 2 (some 1) [],
      Ev.store BlockKind.mandU ("passenger_name") 2 22 (some 20) [],
      Ev.store BlockKind.mandU ("electronic_ticket") 22 23 (some 1) []]
     InvReason.legCount [] (by decide) (by decide)⟩

/-- C5 (counterexample): `"M1"` is shorter than the 23-character mandatory
unique block and decodes with `valid = false`, but the legs sequence is not
empty — a partially-filled leg was appended before the failure. -/
theorem claim5_counterexample :
    c5str.length < 23 ∧ (parse c5str).valid = false ∧
    (parse c5str).legs ≠ [] := by
  refine ⟨by decide, by decide, by decide⟩

/-- C5 (amended): for every input shorter than the 23-character mandatory
unique block, `valid = false`, and at most one (partially-filled) leg is
ever appended — no leg completes. -/
theorem claim5_amended_short (s : List Char) (h : s.length < 23) :
    (parse s).valid = false ∧ (parse s).legs.length ≤ 1 := by
  unfold parse
  dsimp only
  rw [mandU_leg_count s]
  cases hl : pyIntDec (pySlice s 1 2) with
  | none =>
    refine ⟨rfl, ?_⟩
    have h2 : (invalidate (fixedGo Target.top BlockKind.mandU mandUFields 0 (initSt s)) InvReason.legCount).legs = (initSt s).legs :=
      (fixedGo_top_raw BlockKind.mandU mandUFields 0 (initSt s)).2
    show (invalidate (fixedGo Target.top BlockKind.mandU mandUFields 0 (initSt s)) InvReason.legCount).legs.length ≤ 1
    rw [h2]
    simp [initSt]
  | some n =>
    dsimp only
    have hctl := (fixedGo_spec Target.top BlockKind.mandU mandUFields 0 (initSt s)).1
    have hlegsM := (fixedGo_top_raw BlockKind.mandU mandUFields 0 (initSt s)).2
    have hin : ({ fixedGo Target.top BlockKind.mandU mandUFields 0 (initSt s) with legCount := some n, cursor := (mandULen : Int) } : PSt).input = s := hctl.1
    have hstp : ({ fixedGo Target.top BlockKind.mandU mandUFields 0 (initSt s) with legCount := some n, cursor := (mandULen : Int) } : PSt).stopped = false := hctl.2.1
    have hlg : ({ fixedGo Target.top BlockKind.mandU mandUFields 0 (initSt s) with legCount := some n, cursor := (mandULen : Int) } : PSt).legs = [] := hlegsM
    have hcur : ({ fixedGo Target.top BlockKind.mandU mandUFields 0 (initSt s) with legCount := some n, cursor := (mandULen : Int) } : PSt).cursor = 23 := by
      show ((mandULen : Nat) : Int) = 23
      decide
    cases hnt : n.toNat with
    | zero =>
      constructor
      · exact finishLoop_past_end 0 0 _ hstp (by rw [hin, hcur]; omega)
      · show (finish ({ fixedGo Target.top BlockKind.mandU mandUFields 0 (initSt s) with legCount := some n, cursor := (mandULen : Int) } : PSt)).legs.length ≤ 1
        rw [finish_legs, hlg]
        decide
    | succ m =>
      obtain ⟨hv, hsp, hlegs1⟩ := legIter_past_end 0
        ({ fixedGo Target.top BlockKind.mandU mandUFields 0 (initSt s) with legCount := some n, cursor := (mandULen : Int) } : PSt)
        hstp (by rw [hin, hcur]; omega)
      have hloop : legsLoop (m + 1) 0 ({ fixedGo Target.top BlockKind.mandU mandUFields 0 (initSt s) with legCount := some n, cursor := (mandULen : Int) } : PSt) =
          legIter 0 ({ fixedGo Target.top BlockKind.mandU mandUFields 0 (initSt s) with legCount := some n, cursor := (mandULen : Int) } : PSt) := by
        show legsLoop m 1 _ = _
        exact legsLoop_stopped m 1 _ hsp
      rw [hloop, finish_stopped _ hsp]
      refine ⟨hv, ?_⟩
      rw [hlegs1, hlg]
      decide

/-- Witness for C5 (amended) at the concrete input `"M1"`. -/
theorem claim5_witness :
    c5str.length < 23 ∧
    ((parse c5str).valid = false ∧ (parse c5str).legs.length ≤ 1) :=
  ⟨by decide, claim5_amended_short c5str (by decide)⟩

/-- C3 (counterexample): on `c3str` the first leg's Conditional Repeated
block declares the span 64–321, far past both the leg's declared end (66)
and the 80-character input, yet `valid` stays `true`: the
`cursor > leg_end` check returns without invalidating. -/
theorem claim3_counterexample :
    Ev.block BlockKind.condR 64 321 ∈ (parse c3str).events ∧
    (c3str.length : Int) = 80 ∧ (parse c3str).valid = true := by
  refine ⟨by decide, by decide, by decide⟩

/-- C3 (amended): when the first leg's `conditional_airline_length` is a
non-zero hex number and the Conditional *Unique* block's internal
`following_unique_length` field makes the block span (ending at `64 + fl`)
run past the text length, the document ends up `valid = false`; for the
Conditional *Repeated* block no such guarantee holds
(`claim3_counterexample`). -/
theorem claim3_amended (s : List Char) (n ca fl : Int)
    (hn : pyIntDec (pySlice s 1 2) = some n) (hn1 : 1 ≤ n)
    (hca : pyIntHex (pySlice s 58 60) = some ca) (hca0 : ca ≠ 0)
    (hfl : pyIntHex (pySlice s 62 64) = some fl)
    (hlen : (s.length : Int) < 64 + fl) :
    (parse s).valid = false := by
  unfold parse
  dsimp only
  rw [mandU_leg_count s, hn]
  dsimp only
  obtain ⟨m, hm⟩ : ∃ m, n.toNat = m + 1 := ⟨n.toNat - 1, by omega⟩
  rw [hm]
  refine condU_overrun_invalid m _ ?_ ca fl ?_ hca0 ?_ ?_
  · exact (fixedGo_spec Target.top BlockKind.mandU mandUFields 0 (initSt s)).1.2.1
  · exact hca
  · exact hfl
  · exact hlen

/-- Witness for C3 (amended) at the concrete input `w3str`, whose
Conditional Unique block declares 0xFF following characters on a
64-character input. -/
theorem claim3_witness :
    (pyIntDec (pySlice w3str 1 2) = some 1 ∧ (1 : Int) ≤ 1 ∧
     pyIntHex (pySlice w3str 58 60) = some 4 ∧ (4 : Int) ≠ 0 ∧
     pyIntHex (pySlice w3str 62 64) = some 255 ∧
     (w3str.length : Int) < 64 + 255) ∧
    (parse w3str).valid = false :=
  ⟨⟨by decide, by decide, by decide, by decide, by decide, by decide⟩,
   claim3_amended w3str 1 4 255 (by decide) (by decide) (by decide)
     (by decide) (by decide) (by decide)⟩

/-- C9: round-trip. For every synthetic single-leg BCBP string made of a
23-character mandatory unique block with leg count `'1'` followed by a
37-character mandatory repeated block whose `conditional_airline_length`
is `"00"`, decoding yields `valid = true`, `raw` holding exactly the four
mandatory-unique fields as verbatim slices of the first block, exactly one
leg holding exactly the eleven mandatory-repeated fields as verbatim
slices of the second block (no conditional or airline keys), no version
number and no trailing unknown data. -/
theorem claim9_roundtrip (u r : List Char)
    (hu : u.length = 23) (hr : r.length = 37)
    (hlc : pySlice u 1 2 = ['1']) (hcar : pySlice r 35 37 = ['0', '0']) :
    (parse (u ++ r)).valid = true ∧
    (parse (u ++ r)).raw =
      [(("format_code"), pySlice u 0 1), (("leg_count"), pySlice u 1 2),
       (("passenger_name"), pySlice u 2 22),
       (("electronic_ticket"), pySlice u 22 23)] ∧
    (parse (u ++ r)).legs =
      [[(("pnr"), pySlice r 0 7), (("from_airport"), pySlice r 7 10),
        (("to_airport"), pySlice r 10 13),
        (("operating_carrier"), pySlice r 13 16),
        (("flight_number"), pySlice r 16 21), (("flight_date"), pySlice r 21 24),
        (("compartment_code"), pySlice r 24 25),
        (("seat_number"), pySlice r 25 29),
        (("check_in_sequence"), pySlice r 29 34),
        (("passenger_status"), pySlice r 34 35),
        (("conditional_airline_length"), pySlice r 35 37)]] ∧
    (parse (u ++ r)).vnum = none ∧ (parse (u ++ r)).unknown = none := by
  have hmu23 : ((mandULen : Nat) : Int) = 23 := by decide
  have hmr37 : ((mandRLen : Nat) : Int) = 37 := by decide
  have hlen60 : (((u ++ r).length : Nat) : Int) = 60 := by
    rw [List.length_append, hu, hr]
    decide
  have hraw4 : dictGo (u ++ r) 0 [] mandUFields =
      [(("format_code"), pySlice u 0 1), (("leg_count"), pySlice u 1 2),
       (("passenger_name"), pySlice u 2 22),
       (("electronic_ticket"), pySlice u 22 23)] := by
    simp [mandUFields, dictGo, setAssoc]
    refine ⟨?_, ?_, ?_, ?_⟩ <;>
      exact pySlice_append_left u r _ _ (by omega) (by omega) (by omega)
  have hleg11 : dictGo (u ++ r) 23 [] mandRFields =
      [(("pnr"), pySlice r 0 7), (("from_airport"), pySlice r 7 10),
       (("to_airport"), pySlice r 10 13),
       (("operating_carrier"), pySlice r 13 16),
       (("flight_number"), pySlice r 16 21), (("flight_date"), pySlice r 21 24),
       (("compartment_code"), pySlice r 24 25),
       (("seat_number"), pySlice r 25 29),
       (("check_in_sequence"), pySlice r 29 34),
       (("passenger_status"), pySlice r 34 35),
       (("conditional_airline_length"), pySlice r 35 37)] := by
    simp [mandRFields, dictGo, setAssoc]
    refine ⟨?_, ?_, ?_, ?_, ?_, ?_, ?_, ?_, ?_, ?_, ?_⟩ <;>
      exact pySlice_append_shift u r _ _ _ _ (by omega) (by omega) (by omega)
        (by omega)
  have hl12 : pyIntDec (pySlice (u ++ r) 1 2) = some 1 := by
    rw [pySlice_append_left u r 1 2 (by omega) (by omega) (by omega), hlc]
    decide
  have hfgM := fixedGo_spec Target.top BlockKind.mandU mandUFields 0
    (initSt (u ++ r))
  have hrawM := fixedGo_top_raw BlockKind.mandU mandUFields 0 (initSt (u ++ r))
  unfold parse
  dsimp only
  rw [mandU_leg_count, hl12]
  dsimp only
  set stM := fixedGo Target.top BlockKind.mandU mandUFields 0 (initSt (u ++ r))
    with hstM
  have hMin : stM.input = u ++ r := hfgM.1.1
  have hMst : stM.stopped = false := hfgM.1.2.1
  have hMvn : stM.vnum = none := hfgM.1.2.2.2.1
  have hMun : stM.unknown = none := hfgM.1.2.2.2.2.2
  have hMval : stM.valid = true := hfgM.2.1
  have hMraw : stM.raw = dictGo (u ++ r) 0 [] mandUFields := hrawM.1
  have hMlegs : stM.legs = [] := hrawM.2
  set st1 := ({ stM with legCount := some 1, cursor := (mandULen : Int) } : PSt)
    with hst1
  have h1in : st1.input = u ++ r := hMin
  have h1st : st1.stopped = false := hMst
  have h1cur : st1.cursor = 23 := hmu23
  have h1vn : st1.vnum = none := hMvn
  have h1un : st1.unknown = none := hMun
  have h1val : st1.valid = true := hMval
  have h1raw : st1.raw = dictGo (u ++ r) 0 [] mandUFields := hMraw
  have h1legs : st1.legs = [] := hMlegs
  have hlegsLoop : legsLoop (Int.toNat 1) 0 st1 = legIter 0 st1 := rfl
  rw [hlegsLoop]
  have hfg2 := fixedGo_spec Target.leg BlockKind.mandR mandRFields st1.cursor
    { st1 with legs := st1.legs ++ [[]] }
  have hlegs2 : (fixedGo Target.leg BlockKind.mandR mandRFields st1.cursor
      { st1 with legs := st1.legs ++ [[]] }).legs =
      st1.legs ++ [dictGo st1.input st1.cursor [] mandRFields] :=
    fixedGo_legs_dict BlockKind.mandR mandRFields st1.cursor _ st1.legs [] rfl
  have hraw2 : (fixedGo Target.leg BlockKind.mandR mandRFields st1.cursor
      { st1 with legs := st1.legs ++ [[]] }).raw = st1.raw :=
    fixedGo_leg_raw BlockKind.mandR mandRFields st1.cursor _
  set st2 := fixedGo Target.leg BlockKind.mandR mandRFields st1.cursor
    { st1 with legs := st1.legs ++ [[]] } with hst2
  have h2in : st2.input = u ++ r := hfg2.1.1.trans h1in
  have h2st : st2.stopped = false := hfg2.1.2.1.trans h1st
  have h2cur : st2.cursor = 23 := hfg2.1.2.2.1.trans h1cur
  have h2vn : st2.vnum = none := hfg2.1.2.2.2.1.trans h1vn
  have h2un : st2.unknown = none := hfg2.1.2.2.2.2.2.trans h1un
  have h2val : st2.valid = true := hfg2.2.1.trans h1val
  have h2raw : st2.raw = dictGo (u ++ r) 0 [] mandUFields := hraw2.trans h1raw
  have h2legs : st2.legs = [dictGo (u ++ r) 23 [] mandRFields] := by
    rw [hlegs2, h1legs, h1in, h1cur]
    rfl
  clear_value st2 st1 stM
  have hcaM0 : pyIntHex ((st2.legs.getLast?.bind
      (fun d => getAssoc d ("conditional_airline_length"))).getD []) = some 0 := by
    rw [h2legs]
    show pyIntHex ((getAssoc (dictGo (u ++ r) 23 [] mandRFields)
      ("conditional_airline_length")).getD []) = some 0
    rw [mandR_ca_lookup, (by norm_num : (23 : Int) + 35 = 58),
      (by norm_num : (23 : Int) + 37 = 60),
      pySlice_append_shift u r 58 60 35 37 (by omega) (by omega) (by omega)
        (by omega),
      hcar]
    decide
  have hIter : legIter 0 st1 = { st2 with cursor := st2.cursor + (mandRLen : Int) } := by
    unfold legIter
    rw [if_neg (by rw [h1st]; exact Bool.false_ne_true)]
    dsimp only
    rw [← hst2]
    rw [hcaM0]
    dsimp only
    rw [if_pos (show (0 : Int) = 0 from rfl)]
  have hsec : secPhase { st2 with cursor := st2.cursor + (mandRLen : Int) } =
      { st2 with cursor := st2.cursor + (mandRLen : Int) } := by
    unfold secPhase
    dsimp only
    rw [h2vn]
  have hfin : finish { st2 with cursor := st2.cursor + (mandRLen : Int) } =
      { st2 with cursor := st2.cursor + (mandRLen : Int) } := by
    unfold finish
    dsimp only
    rw [if_neg (by rw [h2st]; exact Bool.false_ne_true)]
    rw [if_neg (show ¬ st2.cursor + (mandRLen : Int) >
        ((st2.input.length : Nat) : Int) from by
      rw [h2cur, hmr37, h2in, hlen60]; omega)]
    rw [hsec]
    rw [if_neg (by rw [h2st]; exact Bool.false_ne_true)]
    rw [if_neg (show ¬ st2.cursor + (mandRLen : Int) <
        ((st2.input.length : Nat) : Int) from by
      rw [h2cur, hmr37, h2in, hlen60]; omega)]
  rw [hIter, hfin]
  refine ⟨h2val, ?_, ?_, h2vn, h2un⟩
  · show st2.raw = _
    rw [h2raw, hraw4]
  · show st2.legs = _
    rw [h2legs, hleg11]
/-- Witness for C9 at the concrete blocks `muStr` and `c9r`. -/
theorem claim9_witness :
    (muStr.length = 23 ∧ c9r.length = 37 ∧ pySlice muStr 1 2 = ['1'] ∧
     pySlice c9r 35 37 = ['0', '0']) ∧
    ((parse (muStr ++ c9r)).valid = true ∧
     (parse (muStr ++ c9r)).raw =
       [(("format_code"), pySlice muStr 0 1), (("leg_count"), pySlice muStr 1 2),
        (("passenger_name"), pySlice muStr 2 22),
        (("electronic_ticket"), pySlice muStr 22 23)] ∧
     (parse (muStr ++ c9r)).legs =
       [[(("pnr"), pySlice c9r 0 7), (("from_airport"), pySlice c9r 7 10),
         (("to_airport"), pySlice c9r 10 13),
         (("operating_carrier"), pySlice c9r 13 16),
         (("flight_number"), pySlice c9r 16 21),
         (("flight_date"), pySlice c9r 21 24),
         (("compartment_code"), pySlice c9r 24 25),
         (("seat_number"), pySlice c9r 25 29),
         (("check_in_sequence"), pySlice c9r 29 34),
         (("passenger_status"), pySlice c9r 34 35),
         (("conditional_airline_length"), pySlice c9r 35 37)]] ∧
     (parse (muStr ++ c9r)).vnum = none ∧
     (parse (muStr ++ c9r)).unknown = none) :=
  ⟨⟨by decide, by decide, by decide, by decide⟩,
   claim9_roundtrip muStr c9r (by decide) (by decide) (by decide) (by decide)⟩

end BCBP
